import Mathlib

/-!
# terminal-ai: the suggestion engine (`ai-core/engine.go`)

A shallow embedding of `callGeminiAPI`, `generateSuggestion` and `main`, together with the
parts of the Go standard library they call, followed by the properties of the suggestion
generator, the HTTP caller and the CLI driver.

Conventions of the embedding:

* a Go `string` is the list of its bytes (`GoString`), each byte a natural number below 256;
* a text delivered by `encoding/json` is held as its runes (`List Char`): the decoder only ever
  produces valid UTF-8, replacing whatever is invalid by U+FFFD;
* Go `int`, `rune` and `time.Duration` values are integers; the one multiplication that can
  leave the 64-bit range is wrapped explicitly;
* shifts and masks on bytes and runes are written as division and remainder
  (`x >> 6` is `x / 64`, `x & 0x3F` is `x % 64`, `a << 6 | b` is `a * 64 + b`);
* the process environment, the HTTP transport and the JSON decoding of the response body are
  parameters (`Env`, `World`); what is written to stderr and what is sent over the network is
  returned next to the result;
* `callGeminiAPI`, `generateSuggestion` and `main` say what the code does once `client.Do`
  has returned; a request for which it never returns ends the `Run` of the process as
  `blocked` (`run`);
* `encoding/json` writes a byte that is not valid UTF-8 as the rune U+FFFD itself (the
  bytes EF BF BD), and backspace and form feed in their short form.
-/

namespace TerminalAI

/-! ## Strings and runes -/

/-- A Go `string`: its bytes in order. -/
abbrev GoString := List Nat

/-- The rune `utf8.RuneError`, U+FFFD. -/
def RuneError : Nat := 0xFFFD

/-- The bytes `utf8.AppendRune` writes for rune `r`: surrogates and values above
`utf8.MaxRune` are written as `RuneError`. -/
def AppendRune (r : Nat) : GoString :=
  if r < 0x80 then [r]
  else if r < 0x800 then [0xC0 + r / 64, 0x80 + r % 64]
  else if 0x10FFFF < r ∨ (0xD800 ≤ r ∧ r ≤ 0xDFFF) then [0xEF, 0xBF, 0xBD]
  else if r < 0x10000 then [0xE0 + r / 4096, 0x80 + r / 64 % 64, 0x80 + r % 64]
  else [0xF0 + r / 262144, 0x80 + r / 4096 % 64, 0x80 + r / 64 % 64, 0x80 + r % 64]

/-- The Go string holding the runes `cs`: their UTF-8 encoding. -/
def utf8 (cs : List Char) : GoString :=
  match cs with
  | [] => []
  | c :: rest => AppendRune c.toNat ++ utf8 rest

/-- The bytes of a string literal of the source. -/
def str (s : String) : GoString := utf8 s.toList

/-- The result of `utf8.DecodeRuneInString`: the first rune of `s` and its width in bytes;
`(RuneError, 1)` for an invalid or truncated encoding and `(RuneError, 0)` for the empty
string. The ranges are those of the `first` and `acceptRanges` tables. -/
def DecodeRune (s : GoString) : Nat × Nat :=
  match s with
  | [] => (RuneError, 0)
  | s0 :: t =>
    if s0 < 0x80 then (s0, 1)
    else if s0 < 0xC2 then (RuneError, 1)
    else if s0 < 0xE0 then
      match t with
      | s1 :: _ =>
        if s1 < 0x80 ∨ 0xBF < s1 then (RuneError, 1)
        else (s0 % 32 * 64 + s1 % 64, 2)
      | [] => (RuneError, 1)
    else if s0 < 0xF0 then
      match t with
      | s1 :: s2 :: _ =>
        if s1 < (if s0 = 0xE0 then 0xA0 else 0x80) ∨ (if s0 = 0xED then 0x9F else 0xBF) < s1 then
          (RuneError, 1)
        else if s2 < 0x80 ∨ 0xBF < s2 then (RuneError, 1)
        else (s0 % 16 * 4096 + s1 % 64 * 64 + s2 % 64, 3)
      | _ => (RuneError, 1)
    else if s0 < 0xF5 then
      match t with
      | s1 :: s2 :: s3 :: _ =>
        if s1 < (if s0 = 0xF0 then 0x90 else 0x80) ∨ (if s0 = 0xF4 then 0x8F else 0xBF) < s1 then
          (RuneError, 1)
        else if s2 < 0x80 ∨ 0xBF < s2 then (RuneError, 1)
        else if s3 < 0x80 ∨ 0xBF < s3 then (RuneError, 1)
        else (s0 % 8 * 262144 + s1 % 64 * 4096 + s2 % 64 * 64 + s3 % 64, 4)
      | _ => (RuneError, 1)
    else (RuneError, 1)

/-- The function `unicode.IsSpace`: the Latin-1 spaces and the other code points with the
Unicode property White_Space. -/
def IsSpace (c : Char) : Bool :=
  let r := c.toNat
  if r ≤ 0xFF then
    r = 0x09 ∨ r = 0x0A ∨ r = 0x0B ∨ r = 0x0C ∨ r = 0x0D ∨ r = 0x20 ∨ r = 0x85 ∨ r = 0xA0
  else
    r = 0x1680 ∨ (0x2000 ≤ r ∧ r ≤ 0x200A) ∨ r = 0x2028 ∨ r = 0x2029 ∨ r = 0x202F ∨
      r = 0x205F ∨ r = 0x3000

/-- The function `strings.TrimSpace` on a valid UTF-8 text: all leading and all trailing
white space, as `unicode.IsSpace` defines it, is removed. -/
def TrimSpace (s : List Char) : List Char :=
  ((s.dropWhile IsSpace).reverse.dropWhile IsSpace).reverse

/-- The function `strings.Join`. -/
def Join (elems : List GoString) (sep : GoString) : GoString :=
  match elems with
  | [] => []
  | [a] => a
  | a :: rest => a ++ sep ++ Join rest sep

/-! ## Numbers -/

/-- The decimal digits of `n`, most significant first, in front of `acc`; `fuel` bounds the
number of digits. -/
def formatBits (fuel n : Nat) (acc : GoString) : GoString :=
  match fuel with
  | 0 => acc
  | fuel + 1 =>
    if n < 10 then (48 + n) :: acc
    else formatBits fuel (n / 10) ((48 + n % 10) :: acc)

/-- The function `strconv.Itoa`, which is also what the verb `%d` prints. -/
def Itoa (i : Int) : GoString :=
  if i < 0 then 45 :: formatBits (i.natAbs + 1) i.natAbs []
  else formatBits (i.natAbs + 1) i.natAbs []

/-- The value of a run of ASCII digits read after `acc`; `none` at the first byte that is
not a digit. -/
def parseDigits (s : GoString) (acc : Nat) : Option Nat :=
  match s with
  | [] => some acc
  | ch :: rest => if 48 ≤ ch ∧ ch ≤ 57 then parseDigits rest (acc * 10 + (ch - 48)) else none

/-- The function `strconv.Atoi` for a 64-bit `int`: an optional sign, then one or more
decimal digits; `none` stands for its error (wrong syntax, or a value outside the range of
`int`). -/
def Atoi (s : GoString) : Option Int :=
  match s with
  | [] => none
  | c :: rest =>
    if c = 45 then
      match rest with
      | [] => none
      | _ =>
        match parseDigits rest 0 with
        | some v => if v ≤ 9223372036854775808 then some (-(v : Int)) else none
        | none => none
    else if c = 43 then
      match rest with
      | [] => none
      | _ =>
        match parseDigits rest 0 with
        | some v => if v < 9223372036854775808 then some (v : Int) else none
        | none => none
    else
      match parseDigits s 0 with
      | some v => if v < 9223372036854775808 then some (v : Int) else none
      | none => none

/-- The value an `int64` holds after an arithmetic result `x`: `x` modulo 2^64, in the
signed range. -/
def wrapInt64 (x : Int) : Int :=
  (x + 9223372036854775808) % 18446744073709551616 - 9223372036854775808

/-- The constant `time.Second`, in nanoseconds. -/
def Second : Int := 1000000000

/-! ## `encoding/json`: writing a string -/

/-- The table `htmlSafeSet`: the ASCII bytes `json.Marshal` copies unescaped. -/
def htmlSafeSet (b : Nat) : Bool :=
  0x20 ≤ b ∧ b < 0x80 ∧ b ≠ 0x22 ∧ b ≠ 0x26 ∧ b ≠ 0x3C ∧ b ≠ 0x3E ∧ b ≠ 0x5C

/-- One digit of the table `hex`, `"0123456789abcdef"`. -/
def hex (n : Nat) : Nat := if n < 10 then 48 + n else 87 + n

/-- The escape `appendString` writes for an ASCII byte outside `htmlSafeSet`, as of Go 1.22
(earlier releases write `\u0008` and `\u000c` for backspace and form feed, which a JSON
decoder reads as the same two bytes). -/
def escapeByte (b : Nat) : GoString :=
  if b = 0x5C ∨ b = 0x22 then [0x5C, b]
  else if b = 0x08 then [0x5C, 0x62]
  else if b = 0x0C then [0x5C, 0x66]
  else if b = 0x0A then [0x5C, 0x6E]
  else if b = 0x0D then [0x5C, 0x72]
  else if b = 0x09 then [0x5C, 0x74]
  else [0x5C, 0x75, 0x30, 0x30, hex (b / 16), hex (b % 16)]

/-- The loop of `appendString` (with `escapeHTML` set, as `json.Marshal` does) over the
rest `src` of the string: an ASCII byte is copied or escaped, a byte that is not valid UTF-8
is written as the three bytes of U+FFFD, the runes U+2028 and U+2029 are escaped, every
other rune is copied. `fuel` bounds the number of iterations. -/
def appendStringLoop (fuel : Nat) (src : GoString) : GoString :=
  match fuel with
  | 0 => []
  | fuel + 1 =>
    match src with
    | [] => []
    | b :: rest =>
      if b < 0x80 then
        (if htmlSafeSet b then [b] else escapeByte b) ++ appendStringLoop fuel rest
      else
        let d := DecodeRune (src.take 4)
        if d.1 = RuneError ∧ d.2 = 1 then
          [0xEF, 0xBF, 0xBD] ++ appendStringLoop fuel (src.drop d.2)
        else if d.1 = 0x2028 ∨ d.1 = 0x2029 then
          [0x5C, 0x75, 0x32, 0x30, 0x32, hex (d.1 % 16)] ++ appendStringLoop fuel (src.drop d.2)
        else src.take d.2 ++ appendStringLoop fuel (src.drop d.2)

/-- The JSON string literal `json.Marshal` writes for a Go string (`appendString`). -/
def appendString (src : GoString) : GoString :=
  [0x22] ++ appendStringLoop src.length src ++ [0x22]

/-- The function `fmt.Println` applied to one string: the string and a newline. -/
def Println (s : GoString) : GoString := s ++ [0x0A]

/-! ## The data of the program -/

/-- Suggestion represents an AI-generated command suggestion. -/
structure Suggestion where
  Command : GoString
deriving DecidableEq, Repr

/-- GeminiRequest represents the payload structure for Gemini API. -/
structure GeminiRequest where
  CommandHistory : List GoString
  LastCommandOutput : GoString
  UserClipBoard : GoString
  UserQuery : GoString
deriving DecidableEq, Repr

/-- One element of `parts` in a `GeminiResponse`. -/
structure Part where
  Text : List Char
deriving DecidableEq, Repr

/-- The field `content` of a candidate. -/
structure Content where
  Parts : List Part
deriving DecidableEq, Repr

/-- One element of `candidates` in a `GeminiResponse`. -/
structure Candidate where
  Content : Content
deriving DecidableEq, Repr

/-- GeminiResponse represents the response from Gemini API. -/
structure GeminiResponse where
  Candidates : List Candidate
deriving DecidableEq, Repr

/-- The environment variables the program reads, each with the value `os.Getenv` returns
for it (the empty string when the variable is not set). -/
structure Env where
  GEMINI_API_KEY : GoString
  TERMINAL_AI_TIMEOUT : GoString
  TERMINAL_AI_DEBUG : GoString
  TERMINAL_AI_OFFLINE : GoString
  TERMINAL_AI_JSON : GoString
deriving DecidableEq, Repr

/-- A request handed to `client.Do`: the client's `Timeout` in nanoseconds, the URL and the
body of the POST. -/
structure HttpRequest where
  Timeout : Int
  URL : GoString
  Body : GoString
deriving DecidableEq, Repr

/-- What `client.Do` delivers when it does not fail: the status code and the bytes of the
body. -/
structure Response where
  StatusCode : Int
  Body : GoString
deriving DecidableEq, Repr

/-- Everything outside the process: whether `http.NewRequest` rejects a URL (the text of its
error), what `client.Do` answers to a request once it returns (the text of its error for a
transport failure or a timeout), what `json.NewDecoder(resp.Body).Decode` makes of a body
(the text of its error for a malformed one), and whether `client.Do` returns at all for a
request: it does when the peer answers or the transport fails, and against a peer that
stays silent it does only through the deadline of the client, which `http.Client` arms for
a `Timeout` above zero and for no other. -/
structure World where
  NewRequest : GoString → GoString → Option GoString
  Do : HttpRequest → Except GoString Response
  Decode : GoString → Except GoString GeminiResponse
  Returns : HttpRequest → Bool

/-- The errors `callGeminiAPI` returns, one for each `fmt.Errorf` of its body, with the
values its format string prints. -/
inductive GeminiError where
  | notSet
  | marshal (err : GoString)
  | createRequest (err : GoString)
  | call (err : GoString)
  | status (StatusCode : Int) (body : GoString)
  | parse (err : GoString)
  | empty
deriving DecidableEq, Repr

/-- The message of an error: the format string of its `fmt.Errorf` with the verbs filled in. -/
def GeminiError.Error (e : GeminiError) : GoString :=
  match e with
  | .notSet => str "GEMINI_API_KEY environment variable not set"
  | .marshal err => str "failed to marshal request: " ++ err
  | .createRequest err => str "failed to create request: " ++ err
  | .call err => str "failed to call Gemini API: " ++ err
  | .status code body => str "Gemini API error (status " ++ Itoa code ++ str "): " ++ body
  | .parse err => str "failed to parse API response: " ++ err
  | .empty => str "empty response from Gemini API"

/-- What a call of `callGeminiAPI` returns and does: the two results, the bytes written to
stderr and the requests sent. -/
structure CallResult where
  command : GoString
  err : Option GeminiError
  stderr : GoString
  posts : List HttpRequest
deriving DecidableEq, Repr

/-- What a call of `generateSuggestion` returns and does. -/
structure GenResult where
  suggestion : Suggestion
  stderr : GoString
  posts : List HttpRequest
deriving DecidableEq, Repr

/-- A run of the process: the exit code, the bytes written to stdout and to stderr, and
the requests sent. -/
structure Outcome where
  exit : Int
  stdout : GoString
  stderr : GoString
  posts : List HttpRequest
deriving DecidableEq, Repr

/-! ## The program -/

/-- The prompt `callGeminiAPI` builds with `fmt.Sprintf`. -/
def prompt (payload : GeminiRequest) : GoString :=
  str "You are a terminal assistant. Given the following context:\nCommand History: "
    ++ Join payload.CommandHistory (str "; ")
    ++ str "\nLast Output: " ++ payload.LastCommandOutput
    ++ str "\nClipboard: " ++ payload.UserClipBoard
    ++ str "\n\nUser Query: " ++ payload.UserQuery
    ++ str "\n\nRespond with ONLY the shell command to execute (no explanation, no markdown, just the raw command)."

/-- The JSON text of `reqBody`: `contents[0].parts[0].text = prompt`. -/
def reqBodyJSON (prompt : GoString) : GoString :=
  str "\x7b\"contents\":[\x7b\"parts\":[\x7b\"text\":" ++ appendString prompt ++ str "\x7d]\x7d]\x7d"

/-- The call `json.Marshal(reqBody)`; a map of strings is always marshalled. -/
def MarshalReqBody (prompt : GoString) : Except GoString GoString :=
  .ok (reqBodyJSON prompt)

/-- The URL of the endpoint, the credential being its `key` parameter. -/
def apiURL (apiKey : GoString) : GoString :=
  str "https://generativelanguage.googleapis.com/v1beta/models/gemini-2.5-flash-live:generateContent?key=" ++ apiKey

/-- The call `json.Marshal(suggestion)`. -/
def MarshalSuggestion (s : Suggestion) : Except GoString GoString :=
  .ok (str "\x7b\"command\":" ++ appendString s.Command ++ str "\x7d")

/-- The number of seconds `callGeminiAPI` settles on: the default 5, or the value of
`TERMINAL_AI_TIMEOUT` when `strconv.Atoi` accepts it and it is positive. -/
def timeoutSec (env : Env) : Int :=
  if env.TERMINAL_AI_TIMEOUT ≠ [] then
    match Atoi env.TERMINAL_AI_TIMEOUT with
    | some n => if n > 0 then n else 5
    | none => 5
  else 5

/-- The `Timeout` of the HTTP client: `time.Duration(timeoutSec) * time.Second`, an `int64`
product. -/
def clientTimeout (env : Env) : Int := wrapInt64 (timeoutSec env * Second)

/-- callGeminiAPI sends a request to Google Gemini API and returns a command suggestion. -/
def callGeminiAPI (env : Env) (w : World) (payload : GeminiRequest) : CallResult :=
  let apiKey := env.GEMINI_API_KEY
  if apiKey = [] then ⟨[], some .notSet, [], []⟩
  else
    let url := apiURL apiKey
    match MarshalReqBody (prompt payload) with
    | .error err => ⟨[], some (.marshal err), [], []⟩
    | .ok jsonBody =>
      let debug :=
        if env.TERMINAL_AI_DEBUG = str "1" then
          str "[terminal-ai] calling Gemini with " ++ Itoa (timeoutSec env) ++ str " s timeout\n"
        else []
      match w.NewRequest url jsonBody with
      | some err => ⟨[], some (.createRequest err), debug, []⟩
      | none =>
        let req : HttpRequest := ⟨clientTimeout env, url, jsonBody⟩
        match w.Do req with
        | .error err => ⟨[], some (.call err), debug, [req]⟩
        | .ok resp =>
          if resp.StatusCode ≠ 200 then
            ⟨[], some (.status resp.StatusCode resp.Body), debug, [req]⟩
          else
            match w.Decode resp.Body with
            | .error err => ⟨[], some (.parse err), debug, [req]⟩
            | .ok geminiResp =>
              match geminiResp.Candidates with
              | [] => ⟨[], some .empty, debug, [req]⟩
              | first :: _ =>
                match first.Content.Parts with
                | [] => ⟨[], some .empty, debug, [req]⟩
                | part :: _ => ⟨utf8 (TrimSpace part.Text), none, debug, [req]⟩

/-- generateSuggestion takes user input and context to generate a command suggestion. -/
def generateSuggestion (env : Env) (w : World) (input : GoString) : GenResult :=
  let payload : GeminiRequest := ⟨[], [], [], input⟩
  if env.TERMINAL_AI_OFFLINE = str "1" then
    ⟨⟨input⟩,
      if env.TERMINAL_AI_DEBUG = str "1" then
        Println (str "[terminal-ai] offline mode enabled, echoing input")
      else [],
      []⟩
  else
    let r := callGeminiAPI env w payload
    match r.err with
    | some err => ⟨⟨input⟩, r.stderr ++ str "Error: " ++ err.Error ++ str "\n", r.posts⟩
    | none => ⟨⟨r.command⟩, r.stderr, r.posts⟩

/-- The function `main`, run with `os.Args = Args`, once `client.Do` has returned for the
request it sends; returning from `main` is exit code 0. -/
def main (env : Env) (w : World) (Args : List GoString) : Outcome :=
  if Args.length < 2 then ⟨1, [], [], []⟩
  else
    let query := Join (Args.drop 1) (str " ")
    let g := generateSuggestion env w query
    if env.TERMINAL_AI_JSON = str "1" then
      let output := match MarshalSuggestion g.suggestion with
        | .ok b => b
        | .error _ => []
      ⟨0, Println output, g.stderr, g.posts⟩
    else ⟨0, Println g.suggestion.Command, g.stderr, g.posts⟩

/-! ## The process -/

/-- How a run of the process ends: it exits with an outcome, or it stays blocked for ever in
`client.Do` on a request that does not return, having written to stderr only and nothing to
stdout. -/
inductive Run where
  | exited (o : Outcome)
  | blocked (stderr : GoString) (req : HttpRequest)
deriving DecidableEq, Repr

/-- The worlds in which `client.Do` returns for every request that carries a deadline. -/
def HonoursDeadline (w : World) : Prop :=
  ∀ req : HttpRequest, 0 < req.Timeout → w.Returns req = true

/-! ## Names for parts of the program -/

/-- The request `callGeminiAPI` hands to `client.Do` for a payload. -/
def theRequest (env : Env) (payload : GeminiRequest) : HttpRequest :=
  ⟨clientTimeout env, apiURL env.GEMINI_API_KEY, reqBodyJSON (prompt payload)⟩

/-- The payload `generateSuggestion` builds for an input. -/
def payloadOf (input : GoString) : GeminiRequest := ⟨[], [], [], input⟩

/-- The line `callGeminiAPI` writes to stderr when the debug flag is set. -/
def debugLine (env : Env) : GoString :=
  if env.TERMINAL_AI_DEBUG = str "1" then
    str "[terminal-ai] calling Gemini with " ++ Itoa (timeoutSec env) ++ str " s timeout\n"
  else []

/-- A run of the process with `os.Args = Args`: what `main` does, unless the request it
sends is one for which `client.Do` does not return; then the process is blocked in
`callGeminiAPI`, after the debug line and before anything is printed. -/
def run (env : Env) (w : World) (Args : List GoString) : Run :=
  match (main env w Args).posts.find? (fun req => !w.Returns req) with
  | some req => .blocked (debugLine env) req
  | none => .exited (main env w Args)

/-! ## Coercion to valid UTF-8 -/

/-- A Go string with every byte that is not part of a valid UTF-8 encoding replaced by the
bytes of U+FFFD; `fuel` bounds the number of steps. -/
def coerceLoop (fuel : Nat) (src : GoString) : GoString :=
  match fuel with
  | 0 => []
  | fuel + 1 =>
    match src with
    | [] => []
    | b :: rest =>
      if b < 0x80 then b :: coerceLoop fuel rest
      else if (DecodeRune src).1 = RuneError ∧ (DecodeRune src).2 = 1 then
        [0xEF, 0xBF, 0xBD] ++ coerceLoop fuel (src.drop (DecodeRune src).2)
      else src.take (DecodeRune src).2 ++ coerceLoop fuel (src.drop (DecodeRune src).2)

/-- A Go string coerced to valid UTF-8 the way `json.Marshal` documents it: every invalid
byte is replaced by U+FFFD, everything else is kept. -/
def coerceUTF8 (src : GoString) : GoString := coerceLoop src.length src

/-! ## Reading the JSON output back

What a consumer of stdout does with the line: the string syntax of JSON (RFC 8259), decoded
the way `encoding/json` decodes it. -/

/-- The value of one hexadecimal digit. -/
def hexValue (c : Nat) : Option Nat :=
  if 0x30 ≤ c ∧ c ≤ 0x39 then some (c - 0x30)
  else if 0x61 ≤ c ∧ c ≤ 0x66 then some (c - 0x61 + 10)
  else if 0x41 ≤ c ∧ c ≤ 0x46 then some (c - 0x41 + 10)
  else none

/-- The rune of an escape `\uXXXX` at the head of `s` (the helper `getu4` of the JSON
decoder); `none` when `s` does not begin with such an escape. -/
def getu4 (s : GoString) : Option Nat :=
  match s with
  | b :: u :: h1 :: h2 :: h3 :: h4 :: _ =>
    if b = 0x5C ∧ u = 0x75 then
      match hexValue h1, hexValue h2, hexValue h3, hexValue h4 with
      | some a, some b, some c, some d => some (((a * 16 + b) * 16 + c) * 16 + d)
      | _, _, _, _ => none
    else none
  | _ => none

/-- The decoded text `x` put in front of what the rest of the string decodes to. -/
def prepend (x : GoString) (r : Option (GoString × GoString)) : Option (GoString × GoString) :=
  match r with
  | some (text, rest) => some (x ++ text, rest)
  | none => none

/-- The body of a JSON string, read from behind its opening quote: the decoded bytes and
what follows the closing quote; `none` when the string is malformed or does not end.
Escapes are resolved, a surrogate pair is one rune, a lone surrogate and every invalid byte
become U+FFFD. `fuel` bounds the number of steps. -/
def unquoteLoop (fuel : Nat) (s : GoString) : Option (GoString × GoString) :=
  match fuel with
  | 0 => none
  | fuel + 1 =>
    match s with
    | [] => none
    | c :: r =>
      if c = 0x22 then some ([], r)
      else if c = 0x5C then
        match r with
        | [] => none
        | e :: r2 =>
          if e = 0x22 ∨ e = 0x5C ∨ e = 0x2F then prepend [e] (unquoteLoop fuel r2)
          else if e = 0x62 then prepend [0x08] (unquoteLoop fuel r2)
          else if e = 0x66 then prepend [0x0C] (unquoteLoop fuel r2)
          else if e = 0x6E then prepend [0x0A] (unquoteLoop fuel r2)
          else if e = 0x72 then prepend [0x0D] (unquoteLoop fuel r2)
          else if e = 0x74 then prepend [0x09] (unquoteLoop fuel r2)
          else if e = 0x75 then
            match getu4 s with
            | none => none
            | some rr =>
              if 0xD800 ≤ rr ∧ rr < 0xE000 then
                match getu4 (s.drop 6) with
                | some rr1 =>
                  if rr < 0xDC00 ∧ 0xDC00 ≤ rr1 ∧ rr1 < 0xE000 then
                    prepend (AppendRune ((rr - 0xD800) * 1024 + (rr1 - 0xDC00) + 0x10000))
                      (unquoteLoop fuel (s.drop 12))
                  else prepend (AppendRune RuneError) (unquoteLoop fuel (s.drop 6))
                | none => prepend (AppendRune RuneError) (unquoteLoop fuel (s.drop 6))
              else prepend (AppendRune rr) (unquoteLoop fuel (s.drop 6))
          else none
      else if c < 0x20 then none
      else if c < 0x80 then prepend [c] (unquoteLoop fuel r)
      else prepend (AppendRune (DecodeRune s).1) (unquoteLoop fuel (s.drop (DecodeRune s).2))

/-- A JSON string at the head of `s`: its decoded bytes and what follows it. -/
def parseString (s : GoString) : Option (GoString × GoString) :=
  match s with
  | [] => none
  | c :: r => if c = 0x22 then unquoteLoop r.length r else none

/-- A JSON object with one member whose value is a string, written without white space
between its tokens: the key and the value, both decoded. -/
def decodeObject (s : GoString) : Option (GoString × GoString) :=
  match s with
  | [] => none
  | c :: s1 =>
    if c = 0x7B then
      match parseString s1 with
      | none => none
      | some (key, s2) =>
        match s2 with
        | [] => none
        | c2 :: s3 =>
          if c2 = 0x3A then
            match parseString s3 with
            | none => none
            | some (value, s4) => if s4 = [0x7D] then some (key, value) else none
          else none
    else none

/-! ## Sample environments and worlds -/

/-- An environment with the offline flag and the JSON flag set. -/
def envOfflineJSON : Env := ⟨[], [], [], str "1", str "1"⟩

/-- An environment with nothing set but the offline flag. -/
def envOffline : Env := ⟨[], [], [], str "1", []⟩

/-- An environment with nothing set. -/
def envEmpty : Env := ⟨[], [], [], [], []⟩

/-- An environment with a credential and nothing else. -/
def envKey : Env := ⟨str "k", [], [], [], []⟩

/-- A world whose endpoint answers every request with the given status and body, the body
decoding to `decoded`. -/
def worldReply (status : Int) (body : GoString) (decoded : Except GoString GeminiResponse) :
    World :=
  ⟨fun _ _ => none, fun _ => .ok ⟨status, body⟩, fun _ => decoded, fun _ => true⟩

/-- A world whose endpoint cannot be reached. -/
def worldDown : World :=
  ⟨fun _ _ => none, fun _ => .error (str "context deadline exceeded"), fun _ => .error [],
    fun _ => true⟩

/-- A world whose endpoint accepts the request and never answers: `client.Do` returns, with
the error of the deadline, exactly when the client has a deadline. -/
def worldSilent : World :=
  ⟨fun _ _ => none, fun _ => .error (str "context deadline exceeded"), fun _ => .error [],
    fun req => decide (0 < req.Timeout)⟩

/-- An environment with a credential and the timeout override "9223372037". -/
def envOverflow : Env := ⟨str "k", str "9223372037", [], [], []⟩

/-- A response with one candidate holding one part. -/
def oneText (text : String) : GeminiResponse := ⟨[⟨⟨[⟨text.toList⟩]⟩⟩]⟩

/-! ## `strings.TrimSpace` -/

theorem TrimSpace_eq (s : List Char) :
    TrimSpace s = List.rdropWhile IsSpace (s.dropWhile IsSpace) := rfl

/-- The result of `TrimSpace` does not begin with white space. -/
theorem TrimSpace_head (s : List Char) (c : Char) (h : (TrimSpace s).head? = some c) :
    IsSpace c = false := by
  rw [TrimSpace_eq] at h
  obtain ⟨t, ht⟩ := List.rdropWhile_prefix IsSpace (s.dropWhile IsSpace)
  have h2 := List.head?_dropWhile_not IsSpace s
  cases hr : List.rdropWhile IsSpace (s.dropWhile IsSpace) with
  | nil => rw [hr] at h; simp at h
  | cons x r =>
    rw [hr] at h ht
    simp only [List.head?_cons, Option.some.injEq] at h
    rw [← ht] at h2
    simpa [h] using h2

/-- The result of `TrimSpace` does not end with white space. -/
theorem TrimSpace_getLast (s : List Char) (c : Char) (h : (TrimSpace s).getLast? = some c) :
    IsSpace c = false := by
  rw [TrimSpace_eq] at h
  have hne : List.rdropWhile IsSpace (s.dropWhile IsSpace) ≠ [] := by
    intro h0
    rw [h0] at h
    simp at h
  have h2 := List.rdropWhile_last_not IsSpace (s.dropWhile IsSpace) hne
  rw [List.getLast?_eq_getLast _ hne] at h
  simp only [Option.some.injEq] at h
  rw [h] at h2
  simpa using h2

/-- Trimming a trimmed text changes nothing. -/
theorem TrimSpace_idem (s : List Char) : TrimSpace (TrimSpace s) = TrimSpace s := by
  have hd : (TrimSpace s).dropWhile IsSpace = TrimSpace s := by
    cases hr : TrimSpace s with
    | nil => rfl
    | cons x r =>
      have := TrimSpace_head s x (by rw [hr]; rfl)
      simp [List.dropWhile_cons, this]
  rw [TrimSpace_eq (TrimSpace s), hd, TrimSpace_eq, List.rdropWhile_idempotent]

/-- What `TrimSpace` removes is white space in front of and behind its result. -/
theorem TrimSpace_decomp (s : List Char) :
    ∃ pre post, s = pre ++ TrimSpace s ++ post ∧
      (∀ c ∈ pre, IsSpace c = true) ∧ (∀ c ∈ post, IsSpace c = true) := by
  refine ⟨s.takeWhile IsSpace,
    (((s.dropWhile IsSpace).reverse).takeWhile IsSpace).reverse, ?_, ?_, ?_⟩
  · have h1 := List.takeWhile_append_dropWhile IsSpace (s.dropWhile IsSpace).reverse
    have h2 := congrArg List.reverse h1
    rw [List.reverse_append, List.reverse_reverse] at h2
    rw [List.append_assoc, TrimSpace, h2, List.takeWhile_append_dropWhile]
  · intro c hc
    exact List.mem_takeWhile_imp hc
  · intro c hc
    exact List.mem_takeWhile_imp (List.mem_reverse.mp hc)

/-- A text of white space only is trimmed to the empty text. -/
theorem TrimSpace_of_all_space (s : List Char) (h : ∀ c ∈ s, IsSpace c = true) :
    TrimSpace s = [] := by
  have : s.dropWhile IsSpace = [] := List.dropWhile_eq_nil_iff.mpr h
  simp [TrimSpace, this]

/-- A text that neither begins nor ends with white space is left as it is. -/
theorem TrimSpace_of_trimmed (s : List Char)
    (hh : ∀ c, s.head? = some c → IsSpace c = false)
    (hl : ∀ c, s.getLast? = some c → IsSpace c = false) : TrimSpace s = s := by
  have hd : s.dropWhile IsSpace = s := by
    cases s with
    | nil => rfl
    | cons x r => simp [List.dropWhile_cons, hh x rfl]
  rw [TrimSpace_eq, hd, List.rdropWhile_eq_self_iff]
  intro hne
  have := hl (s.getLast hne) (List.getLast?_eq_getLast _ hne)
  simp [this]

/-! ## The HTTP caller, path by path -/

theorem callGeminiAPI_noKey (env : Env) (w : World) (payload : GeminiRequest)
    (hkey : env.GEMINI_API_KEY = []) :
    callGeminiAPI env w payload = ⟨[], some .notSet, [], []⟩ := by
  simp [callGeminiAPI, hkey]

theorem callGeminiAPI_newRequestFails (env : Env) (w : World) (payload : GeminiRequest)
    (err : GoString) (hkey : env.GEMINI_API_KEY ≠ [])
    (hreq : w.NewRequest (apiURL env.GEMINI_API_KEY) (reqBodyJSON (prompt payload)) = some err) :
    callGeminiAPI env w payload = ⟨[], some (.createRequest err), debugLine env, []⟩ := by
  simp [callGeminiAPI, hkey, MarshalReqBody, hreq, debugLine]

theorem callGeminiAPI_doFails (env : Env) (w : World) (payload : GeminiRequest)
    (err : GoString) (hkey : env.GEMINI_API_KEY ≠ [])
    (hreq : w.NewRequest (apiURL env.GEMINI_API_KEY) (reqBodyJSON (prompt payload)) = none)
    (hdo : w.Do (theRequest env payload) = .error err) :
    callGeminiAPI env w payload
      = ⟨[], some (.call err), debugLine env, [theRequest env payload]⟩ := by
  unfold theRequest at hdo
  simp [callGeminiAPI, hkey, MarshalReqBody, hreq, debugLine, hdo, theRequest]

theorem callGeminiAPI_response (env : Env) (w : World) (payload : GeminiRequest)
    (resp : Response) (hkey : env.GEMINI_API_KEY ≠ [])
    (hreq : w.NewRequest (apiURL env.GEMINI_API_KEY) (reqBodyJSON (prompt payload)) = none)
    (hdo : w.Do (theRequest env payload) = .ok resp) :
    callGeminiAPI env w payload =
      if resp.StatusCode ≠ 200 then
        ⟨[], some (.status resp.StatusCode resp.Body), debugLine env, [theRequest env payload]⟩
      else
        match w.Decode resp.Body with
        | .error err => ⟨[], some (.parse err), debugLine env, [theRequest env payload]⟩
        | .ok geminiResp =>
          match geminiResp.Candidates with
          | [] => ⟨[], some .empty, debugLine env, [theRequest env payload]⟩
          | first :: _ =>
            match first.Content.Parts with
            | [] => ⟨[], some .empty, debugLine env, [theRequest env payload]⟩
            | part :: _ =>
              ⟨utf8 (TrimSpace part.Text), none, debugLine env, [theRequest env payload]⟩ := by
  unfold theRequest at hdo
  simp [callGeminiAPI, hkey, MarshalReqBody, hreq, debugLine, hdo, theRequest]

/-- Whenever `callGeminiAPI` returns an error, the command it returns is empty. -/
theorem callGeminiAPI_command_of_err (env : Env) (w : World) (payload : GeminiRequest)
    (h : (callGeminiAPI env w payload).err ≠ none) :
    (callGeminiAPI env w payload).command = [] := by
  revert h
  unfold callGeminiAPI
  simp only [MarshalReqBody]
  repeat' split
  all_goals simp

/-! ## The suggestion generator -/

theorem generateSuggestion_of_err (env : Env) (w : World) (input : GoString) (e : GeminiError)
    (hoff : env.TERMINAL_AI_OFFLINE ≠ str "1")
    (herr : (callGeminiAPI env w (payloadOf input)).err = some e) :
    generateSuggestion env w input
      = ⟨⟨input⟩,
         (callGeminiAPI env w (payloadOf input)).stderr ++ str "Error: " ++ e.Error ++ str "\n",
         (callGeminiAPI env w (payloadOf input)).posts⟩ := by
  unfold payloadOf at herr
  simp [generateSuggestion, hoff, herr, payloadOf]

theorem generateSuggestion_of_ok (env : Env) (w : World) (input : GoString)
    (hoff : env.TERMINAL_AI_OFFLINE ≠ str "1")
    (herr : (callGeminiAPI env w (payloadOf input)).err = none) :
    generateSuggestion env w input
      = ⟨⟨(callGeminiAPI env w (payloadOf input)).command⟩,
         (callGeminiAPI env w (payloadOf input)).stderr,
         (callGeminiAPI env w (payloadOf input)).posts⟩ := by
  unfold payloadOf at herr
  simp [generateSuggestion, hoff, herr, payloadOf]

theorem generateSuggestion_of_offline (env : Env) (w : World) (input : GoString)
    (hoff : env.TERMINAL_AI_OFFLINE = str "1") :
    generateSuggestion env w input
      = ⟨⟨input⟩,
         if env.TERMINAL_AI_DEBUG = str "1" then
           Println (str "[terminal-ai] offline mode enabled, echoing input")
         else [],
         []⟩ := by
  simp [generateSuggestion, hoff]

/-- The call succeeds exactly when there is a credential, the request is built, it is
answered with status 200, the body decodes, and the first candidate has a first part. -/
theorem callGeminiAPI_ok_iff (env : Env) (w : World) (payload : GeminiRequest) :
    (callGeminiAPI env w payload).err = none ↔
      env.GEMINI_API_KEY ≠ [] ∧
      w.NewRequest (apiURL env.GEMINI_API_KEY) (reqBodyJSON (prompt payload)) = none ∧
      ∃ resp, w.Do (theRequest env payload) = .ok resp ∧ resp.StatusCode = 200 ∧
        ∃ g, w.Decode resp.Body = .ok g ∧
          ∃ first others part parts,
            g.Candidates = first :: others ∧ first.Content.Parts = part :: parts := by
  constructor
  · intro h
    by_cases hkey : env.GEMINI_API_KEY = []
    · rw [callGeminiAPI_noKey env w payload hkey] at h
      cases h
    cases hreq : w.NewRequest (apiURL env.GEMINI_API_KEY) (reqBodyJSON (prompt payload)) with
    | some e =>
      rw [callGeminiAPI_newRequestFails env w payload e hkey hreq] at h
      cases h
    | none =>
      cases hdo : w.Do (theRequest env payload) with
      | error e =>
        rw [callGeminiAPI_doFails env w payload e hkey hreq hdo] at h
        cases h
      | ok resp =>
        rw [callGeminiAPI_response env w payload resp hkey hreq hdo] at h
        by_cases hst : resp.StatusCode = 200
        · simp only [hst, ne_eq, not_true_eq_false, if_false] at h
          cases hdec : w.Decode resp.Body with
          | error e =>
            rw [hdec] at h
            cases h
          | ok g =>
            rw [hdec] at h
            simp only at h
            cases hc : g.Candidates with
            | nil =>
              rw [hc] at h
              cases h
            | cons first others =>
              cases hp : first.Content.Parts with
              | nil =>
                simp only [hc, hp] at h
                cases h
              | cons part parts =>
                exact ⟨hkey, rfl, resp, rfl, hst, g, hdec, first, others, part, parts, hc, hp⟩
        · rw [if_pos hst] at h
          cases h
  · rintro ⟨hkey, hreq, resp, hdo, hst, g, hdec, first, others, part, parts, hc, hp⟩
    rw [callGeminiAPI_response env w payload resp hkey hreq hdo]
    simp only [hst, ne_eq, not_true_eq_false, if_false, hdec, hc, hp]

/-- C1. Fallback law: with offline mode not enabled, whenever `callGeminiAPI` returns an
error, `generateSuggestion` returns the Suggestion whose Command is the original input, after
writing the error to stderr; this is so when the credential is missing, when the request
cannot be built, when the transport fails or times out, when the status is not 200, when the
body is malformed, and when the candidates or the parts of the first candidate are empty.
As a function into `GenResult`, `generateSuggestion` returns a Suggestion in every case. -/
theorem generateSuggestion_fallback (env : Env) (w : World) (input : GoString)
    (hoff : env.TERMINAL_AI_OFFLINE ≠ str "1") :
    ((callGeminiAPI env w (payloadOf input)).err ≠ none →
      (generateSuggestion env w input).suggestion.Command = input ∧
      ∃ e, (callGeminiAPI env w (payloadOf input)).err = some e ∧
        (generateSuggestion env w input).stderr
          = (callGeminiAPI env w (payloadOf input)).stderr ++ str "Error: " ++ e.Error
              ++ str "\n") ∧
    (env.GEMINI_API_KEY = [] → (generateSuggestion env w input).suggestion.Command = input) ∧
    (∀ e, w.NewRequest (apiURL env.GEMINI_API_KEY) (reqBodyJSON (prompt (payloadOf input)))
        = some e → (generateSuggestion env w input).suggestion.Command = input) ∧
    (∀ e, w.Do (theRequest env (payloadOf input)) = .error e →
      (generateSuggestion env w input).suggestion.Command = input) ∧
    (∀ resp, w.Do (theRequest env (payloadOf input)) = .ok resp → resp.StatusCode ≠ 200 →
      (generateSuggestion env w input).suggestion.Command = input) ∧
    (∀ resp e, w.Do (theRequest env (payloadOf input)) = .ok resp →
      w.Decode resp.Body = .error e →
      (generateSuggestion env w input).suggestion.Command = input) ∧
    (∀ resp g, w.Do (theRequest env (payloadOf input)) = .ok resp →
      w.Decode resp.Body = .ok g → g.Candidates = [] →
      (generateSuggestion env w input).suggestion.Command = input) ∧
    (∀ resp g first others, w.Do (theRequest env (payloadOf input)) = .ok resp →
      w.Decode resp.Body = .ok g → g.Candidates = first :: others →
      first.Content.Parts = [] →
      (generateSuggestion env w input).suggestion.Command = input) := by
  have key : (callGeminiAPI env w (payloadOf input)).err ≠ none →
      (generateSuggestion env w input).suggestion.Command = input ∧
      ∃ e, (callGeminiAPI env w (payloadOf input)).err = some e ∧
        (generateSuggestion env w input).stderr
          = (callGeminiAPI env w (payloadOf input)).stderr ++ str "Error: " ++ e.Error
              ++ str "\n" := by
    intro herr
    obtain ⟨e, he⟩ : ∃ e, (callGeminiAPI env w (payloadOf input)).err = some e := by
      cases h : (callGeminiAPI env w (payloadOf input)).err with
      | none => exact absurd h herr
      | some e => exact ⟨e, rfl⟩
    rw [generateSuggestion_of_err env w input e hoff he]
    exact ⟨rfl, e, he, rfl⟩
  have hiff := callGeminiAPI_ok_iff env w (payloadOf input)
  refine ⟨key, ?_, ?_, ?_, ?_, ?_, ?_, ?_⟩
  · intro h
    refine (key fun hok => ?_).1
    exact (hiff.mp hok).1 h
  · intro e h
    refine (key fun hok => ?_).1
    rw [(hiff.mp hok).2.1] at h
    cases h
  · intro e h
    refine (key fun hok => ?_).1
    obtain ⟨_, _, resp, hdo, _⟩ := hiff.mp hok
    rw [hdo] at h
    cases h
  · intro resp h hst
    refine (key fun hok => ?_).1
    obtain ⟨_, _, resp2, hdo, hst2, _⟩ := hiff.mp hok
    rw [hdo] at h
    cases h
    exact hst hst2
  · intro resp e h hdec
    refine (key fun hok => ?_).1
    obtain ⟨_, _, resp2, hdo, _, g, hdec2, _⟩ := hiff.mp hok
    rw [hdo] at h
    cases h
    rw [hdec2] at hdec
    cases hdec
  · intro resp g h hdec hc
    refine (key fun hok => ?_).1
    obtain ⟨_, _, resp2, hdo, _, g2, hdec2, first, others, part, parts, hc2, _⟩ := hiff.mp hok
    rw [hdo] at h
    cases h
    rw [hdec2] at hdec
    cases hdec
    rw [hc2] at hc
    cases hc
  · intro resp g first others h hdec hc hp
    refine (key fun hok => ?_).1
    obtain ⟨_, _, resp2, hdo, _, g2, hdec2, first2, others2, part, parts, hc2, hp2⟩ :=
      hiff.mp hok
    rw [hdo] at h
    cases h
    rw [hdec2] at hdec
    cases hdec
    rw [hc2] at hc
    cases hc
    rw [hp2] at hp
    cases hp

theorem generateSuggestion_fallback_witness :
    envKey.TERMINAL_AI_OFFLINE ≠ str "1" ∧
    (callGeminiAPI envKey worldDown (payloadOf (str "list files"))).err ≠ none ∧
    (generateSuggestion envKey worldDown (str "list files")).suggestion.Command
      = str "list files" ∧
    (generateSuggestion envKey (worldReply 503 (str "busy") (.error [])) (str "list files")
      ).suggestion.Command = str "list files" :=
  ⟨by decide, by decide,
    ((generateSuggestion_fallback envKey worldDown (str "list files") (by decide)).1
      (by decide)).1,
    (generateSuggestion_fallback envKey (worldReply 503 (str "busy") (.error []))
      (str "list files") (by decide)).2.2.2.2.1 ⟨503, str "busy"⟩ rfl (by decide)⟩

/-- C2. Identity law: when `TERMINAL_AI_OFFLINE` is "1", `generateSuggestion` returns the
Suggestion whose Command is the input, whatever the rest of the environment and whatever the
world would answer, and no request is sent. -/
theorem generateSuggestion_offline (env : Env) (w : World) (input : GoString)
    (hoff : env.TERMINAL_AI_OFFLINE = str "1") :
    (generateSuggestion env w input).suggestion.Command = input ∧
    (generateSuggestion env w input).posts = [] ∧
    ∀ w2 : World, generateSuggestion env w2 input = generateSuggestion env w input := by
  refine ⟨?_, ?_, fun w2 => ?_⟩
  · rw [generateSuggestion_of_offline env w input hoff]
  · rw [generateSuggestion_of_offline env w input hoff]
  · rw [generateSuggestion_of_offline env w input hoff,
      generateSuggestion_of_offline env w2 input hoff]

theorem generateSuggestion_offline_witness :
    envOffline.TERMINAL_AI_OFFLINE = str "1" ∧
    (generateSuggestion envOffline worldDown (str "list files")).suggestion.Command
      = str "list files" :=
  ⟨by decide, (generateSuggestion_offline envOffline worldDown (str "list files") (by decide)).1⟩

/-! ## Success and failure of the HTTP caller -/

/-- C3. Success extraction: when the request is answered with status 200 and the body
decodes to a response whose first candidate has a first part, `callGeminiAPI` succeeds and
returns the text of that part without its leading and trailing white space, whatever the
other candidates and parts are; with offline mode not enabled `generateSuggestion` returns
that value as the Command; the text "  ls -la  " gives "ls -la". -/
theorem callGeminiAPI_success (env : Env) (w : World) (payload : GeminiRequest)
    (resp : Response) (g : GeminiResponse) (first : Candidate) (others : List Candidate)
    (part : Part) (parts : List Part)
    (hkey : env.GEMINI_API_KEY ≠ [])
    (hreq : w.NewRequest (apiURL env.GEMINI_API_KEY) (reqBodyJSON (prompt payload)) = none)
    (hdo : w.Do (theRequest env payload) = .ok resp)
    (hstatus : resp.StatusCode = 200)
    (hdec : w.Decode resp.Body = .ok g)
    (hcand : g.Candidates = first :: others)
    (hparts : first.Content.Parts = part :: parts) :
    (callGeminiAPI env w payload).err = none ∧
    (callGeminiAPI env w payload).command = utf8 (TrimSpace part.Text) ∧
    (∃ pre post, part.Text = pre ++ TrimSpace part.Text ++ post ∧
      (∀ c ∈ pre, IsSpace c = true) ∧ (∀ c ∈ post, IsSpace c = true)) ∧
    (∀ c, (TrimSpace part.Text).head? = some c → IsSpace c = false) ∧
    (∀ c, (TrimSpace part.Text).getLast? = some c → IsSpace c = false) ∧
    (env.TERMINAL_AI_OFFLINE ≠ str "1" → ∀ input, payload = payloadOf input →
      (generateSuggestion env w input).suggestion.Command = utf8 (TrimSpace part.Text)) ∧
    utf8 (TrimSpace "  ls -la  ".toList) = str "ls -la" := by
  have hcall := callGeminiAPI_response env w payload resp hkey hreq hdo
  simp only [hstatus, ne_eq, not_true_eq_false, if_false, hdec, hcand, hparts] at hcall
  refine ⟨by rw [hcall], by rw [hcall], TrimSpace_decomp _, TrimSpace_head _, TrimSpace_getLast _,
    ?_, by decide⟩
  intro hoff input hp
  subst hp
  rw [generateSuggestion_of_ok env w input hoff (by rw [hcall]), hcall]

theorem callGeminiAPI_success_witness :
    (callGeminiAPI envKey (worldReply 200 [] (.ok (oneText "  ls -la  ")))
        (payloadOf (str "list files"))).err = none ∧
    (callGeminiAPI envKey (worldReply 200 [] (.ok (oneText "  ls -la  ")))
        (payloadOf (str "list files"))).command = str "ls -la" :=
  have h := callGeminiAPI_success envKey (worldReply 200 [] (.ok (oneText "  ls -la  ")))
    (payloadOf (str "list files")) ⟨200, []⟩ (oneText "  ls -la  ") ⟨⟨[⟨"  ls -la  ".toList⟩]⟩⟩ []
    ⟨"  ls -la  ".toList⟩ [] (by decide) rfl rfl rfl rfl rfl rfl
  ⟨h.1, h.2.1⟩

/-- C4. Failure conditions of the HTTP caller: with an empty `GEMINI_API_KEY` the call fails
with the missing-credential error, writes nothing and sends nothing, whatever the world is;
with a credential and an answered request it fails with the upstream error holding the
status code and the body whenever the status is not 200; with status 200 and a body that
decodes it fails with the empty-response error exactly when there is no candidate or the
first candidate has no part; and whenever it fails the command it returns is empty. -/
theorem callGeminiAPI_failures (env : Env) (w : World) (payload : GeminiRequest) :
    (env.GEMINI_API_KEY = [] → callGeminiAPI env w payload = ⟨[], some .notSet, [], []⟩) ∧
    (∀ resp, env.GEMINI_API_KEY ≠ [] →
      w.NewRequest (apiURL env.GEMINI_API_KEY) (reqBodyJSON (prompt payload)) = none →
      w.Do (theRequest env payload) = .ok resp →
      (resp.StatusCode ≠ 200 →
        (callGeminiAPI env w payload).err = some (.status resp.StatusCode resp.Body) ∧
        (callGeminiAPI env w payload).command = [] ∧
        (GeminiError.status resp.StatusCode resp.Body).Error
          = str "Gemini API error (status " ++ Itoa resp.StatusCode ++ str "): " ++ resp.Body) ∧
      (∀ g, resp.StatusCode = 200 → w.Decode resp.Body = .ok g →
        ((callGeminiAPI env w payload).err = some .empty ↔
          (g.Candidates = [] ∨
            ∃ first others, g.Candidates = first :: others ∧ first.Content.Parts = [])) ∧
        ((callGeminiAPI env w payload).err = some .empty ∨
          (callGeminiAPI env w payload).err = none))) ∧
    ((callGeminiAPI env w payload).err ≠ none → (callGeminiAPI env w payload).command = []) := by
  refine ⟨callGeminiAPI_noKey env w payload, ?_, callGeminiAPI_command_of_err env w payload⟩
  intro resp hkey hreq hdo
  have hcall := callGeminiAPI_response env w payload resp hkey hreq hdo
  refine ⟨?_, ?_⟩
  · intro hst
    rw [if_pos hst] at hcall
    rw [hcall]
    exact ⟨rfl, rfl, rfl⟩
  · intro g hst hdec
    simp only [hst, ne_eq, not_true_eq_false, if_false, hdec] at hcall
    rw [hcall]
    cases hc : g.Candidates with
    | nil => simp
    | cons first others =>
      cases hp : first.Content.Parts with
      | nil => simp [hp]
      | cons part parts => simp [hp]

theorem callGeminiAPI_failures_witness :
    callGeminiAPI envEmpty worldDown (payloadOf (str "list files")) = ⟨[], some .notSet, [], []⟩ ∧
    (callGeminiAPI envKey (worldReply 503 (str "busy") (.error [])) (payloadOf (str "ls"))).err
      = some (.status 503 (str "busy")) ∧
    (callGeminiAPI envKey (worldReply 200 [] (.ok ⟨[⟨⟨[]⟩⟩, ⟨⟨[⟨['l', 's']⟩]⟩⟩]⟩))
      (payloadOf (str "ls"))).err = some .empty :=
  ⟨(callGeminiAPI_failures envEmpty worldDown (payloadOf (str "list files"))).1 rfl,
   ((callGeminiAPI_failures envKey (worldReply 503 (str "busy") (.error []))
      (payloadOf (str "ls"))).2.1 ⟨503, str "busy"⟩ (by decide) rfl rfl).1 (by decide) |>.1,
   (((callGeminiAPI_failures envKey (worldReply 200 [] (.ok ⟨[⟨⟨[]⟩⟩, ⟨⟨[⟨['l', 's']⟩]⟩⟩]⟩))
      (payloadOf (str "ls"))).2.1 ⟨200, []⟩ (by decide) rfl rfl).2
        ⟨[⟨⟨[]⟩⟩, ⟨⟨[⟨['l', 's']⟩]⟩⟩]⟩ rfl rfl).1.mpr (Or.inr ⟨⟨⟨[]⟩⟩, [⟨⟨[⟨['l', 's']⟩]⟩⟩], rfl, rfl⟩)⟩

/-- C10. A successful call is not conditioned on a non-empty command: with offline mode not
enabled, when the request is answered with status 200 and the first part of the first
candidate is white space only (or empty), the Command is the empty string, not the input;
and on every successful call the Command holds a text that neither begins nor ends with
white space and that `TrimSpace` leaves unchanged. -/
theorem generateSuggestion_trimmed (env : Env) (w : World) (input : GoString)
    (resp : Response) (g : GeminiResponse) (first : Candidate) (others : List Candidate)
    (part : Part) (parts : List Part)
    (hoff : env.TERMINAL_AI_OFFLINE ≠ str "1")
    (hkey : env.GEMINI_API_KEY ≠ [])
    (hreq : w.NewRequest (apiURL env.GEMINI_API_KEY) (reqBodyJSON (prompt (payloadOf input)))
      = none)
    (hdo : w.Do (theRequest env (payloadOf input)) = .ok resp)
    (hstatus : resp.StatusCode = 200)
    (hdec : w.Decode resp.Body = .ok g)
    (hcand : g.Candidates = first :: others)
    (hparts : first.Content.Parts = part :: parts) :
    ((∀ c ∈ part.Text, IsSpace c = true) →
      (generateSuggestion env w input).suggestion.Command = []) ∧
    ∃ t : List Char, (generateSuggestion env w input).suggestion.Command = utf8 t ∧
      (∀ c, t.head? = some c → IsSpace c = false) ∧
      (∀ c, t.getLast? = some c → IsSpace c = false) ∧
      TrimSpace t = t := by
  have hcall := callGeminiAPI_response env w (payloadOf input) resp hkey hreq hdo
  simp only [hstatus, ne_eq, not_true_eq_false, if_false, hdec, hcand, hparts] at hcall
  rw [generateSuggestion_of_ok env w input hoff (by rw [hcall]), hcall]
  refine ⟨?_, TrimSpace part.Text, rfl, TrimSpace_head _, TrimSpace_getLast _, TrimSpace_idem _⟩
  intro hall
  show utf8 (TrimSpace part.Text) = []
  rw [TrimSpace_of_all_space _ hall]
  rfl

theorem generateSuggestion_trimmed_witness :
    (generateSuggestion envKey (worldReply 200 [] (.ok (oneText " \t\n")))
      (str "list files")).suggestion.Command = [] ∧ str "list files" ≠ [] :=
  ⟨(generateSuggestion_trimmed envKey (worldReply 200 [] (.ok (oneText " \t\n")))
      (str "list files") ⟨200, []⟩ (oneText " \t\n") ⟨⟨[⟨" \t\n".toList⟩]⟩⟩ []
      ⟨" \t\n".toList⟩ [] (by decide) (by decide) rfl rfl rfl rfl rfl rfl).1 (by decide),
   by decide⟩

/-! ## The timeout -/

theorem parseDigits_formatBits (fuel : Nat) :
    ∀ (n : Nat) (acc : GoString) (m v : Nat), n < fuel →
      (∀ a, parseDigits acc a = some (a * m + v)) →
      ∃ M, ∀ a, parseDigits (formatBits fuel n acc) a = some (a * M + (n * m + v)) := by
  induction fuel with
  | zero => intro n acc m v h; omega
  | succ fuel ih =>
    intro n acc m v hn hacc
    unfold formatBits
    by_cases h10 : n < 10
    · refine ⟨10 * m, fun a => ?_⟩
      rw [if_pos h10]
      unfold parseDigits
      rw [if_pos (by omega), hacc]
      have : 48 + n - 48 = n := by omega
      rw [this]
      congr 1
      ring
    · rw [if_neg h10]
      have hacc2 : ∀ a, parseDigits ((48 + n % 10) :: acc) a
          = some (a * (10 * m) + (n % 10 * m + v)) := by
        intro a
        unfold parseDigits
        rw [if_pos (by omega), hacc]
        have : 48 + n % 10 - 48 = n % 10 := by omega
        rw [this]
        congr 1
        ring
      obtain ⟨M, hM⟩ := ih (n / 10) ((48 + n % 10) :: acc) (10 * m) (n % 10 * m + v)
        (by omega) hacc2
      refine ⟨M, fun a => ?_⟩
      rw [hM]
      congr 2
      have hn : n = 10 * (n / 10) + n % 10 := (Nat.div_add_mod n 10).symm
      calc n / 10 * (10 * m) + (n % 10 * m + v)
          = (10 * (n / 10) + n % 10) * m + v := by ring
        _ = n * m + v := by rw [← hn]

theorem formatBits_head (fuel : Nat) :
    ∀ (n : Nat) (acc : GoString), n < fuel →
      ∃ d rest, formatBits fuel n acc = d :: rest ∧ 48 ≤ d ∧ d ≤ 57 := by
  induction fuel with
  | zero => intro n acc h; omega
  | succ fuel ih =>
    intro n acc hn
    unfold formatBits
    by_cases h10 : n < 10
    · rw [if_pos h10]
      exact ⟨48 + n, acc, rfl, by omega, by omega⟩
    · rw [if_neg h10]
      exact ih (n / 10) _ (by omega)

/-- The function `Atoi` reads back what `Itoa` prints for a value of `int` that is not
negative. -/
theorem Atoi_Itoa (n : Int) (h0 : 0 ≤ n) (h1 : n < 9223372036854775808) :
    Atoi (Itoa n) = some n := by
  obtain ⟨k, rfl⟩ := Int.eq_ofNat_of_zero_le h0
  have hk : k < 9223372036854775808 := by exact_mod_cast h1
  unfold Itoa
  rw [if_neg (by omega)]
  simp only [Int.natAbs_ofNat]
  obtain ⟨d, rest, hd, hd1, hd2⟩ := formatBits_head (k + 1) k [] (by omega)
  obtain ⟨M, hM⟩ := parseDigits_formatBits (k + 1) k [] 1 0 (by omega)
    (fun a => by simp [parseDigits])
  have hp := hM 0
  rw [hd] at hp
  rw [hd]
  unfold Atoi
  simp only
  rw [if_neg (by omega), if_neg (by omega), hp]
  simp [hk]

theorem timeoutSec_pos (env : Env) : 0 < timeoutSec env := by
  unfold timeoutSec
  split
  · split
    · split
      · assumption
      · decide
    · decide
  · decide

/-- Up to 9223372036 seconds the product with `time.Second` stays in the `int64` range. -/
theorem clientTimeout_of_le (env : Env) (h : timeoutSec env ≤ 9223372036) :
    clientTimeout env = timeoutSec env * 1000000000 ∧ 0 < clientTimeout env := by
  have hp := timeoutSec_pos env
  have h1 : 0 ≤ timeoutSec env * 1000000000 + 9223372036854775808 := by omega
  have h2 : timeoutSec env * 1000000000 + 9223372036854775808 < 18446744073709551616 := by
    omega
  unfold clientTimeout wrapInt64 Second
  rw [Int.emod_eq_of_lt h1 h2]
  constructor <;> omega

/-- C5. Timeout selection: the number of seconds is `n` when `strconv.Atoi` parses the value
of `TERMINAL_AI_TIMEOUT` as `n` and `n > 0`, and is 5 whenever it parses no positive value;
the decimal numeral of every positive `int` selects that number; "10" gives 10, and "abc",
"-1", "0" and the unset or empty value give 5. -/
theorem timeoutSec_spec (env : Env) :
    (∀ n, Atoi env.TERMINAL_AI_TIMEOUT = some n → 0 < n → timeoutSec env = n) ∧
    ((∀ n, Atoi env.TERMINAL_AI_TIMEOUT = some n → n ≤ 0) → timeoutSec env = 5) ∧
    (∀ n : Int, 0 < n → n < 9223372036854775808 → env.TERMINAL_AI_TIMEOUT = Itoa n →
      timeoutSec env = n) ∧
    (env.TERMINAL_AI_TIMEOUT = str "10" → timeoutSec env = 10) ∧
    (env.TERMINAL_AI_TIMEOUT = str "abc" → timeoutSec env = 5) ∧
    (env.TERMINAL_AI_TIMEOUT = str "-1" → timeoutSec env = 5) ∧
    (env.TERMINAL_AI_TIMEOUT = str "0" → timeoutSec env = 5) ∧
    (env.TERMINAL_AI_TIMEOUT = [] → timeoutSec env = 5) := by
  have key : ∀ n, Atoi env.TERMINAL_AI_TIMEOUT = some n → 0 < n → timeoutSec env = n := by
    intro n hn hpos
    have hne : env.TERMINAL_AI_TIMEOUT ≠ [] := by
      intro h0
      rw [h0] at hn
      simp [Atoi] at hn
    unfold timeoutSec
    rw [if_pos hne, hn]
    simp [hpos]
  have dflt : (∀ n, Atoi env.TERMINAL_AI_TIMEOUT = some n → n ≤ 0) → timeoutSec env = 5 := by
    intro h
    unfold timeoutSec
    split
    · cases ha : Atoi env.TERMINAL_AI_TIMEOUT with
      | none => rfl
      | some n =>
        have := h n ha
        simp only
        rw [if_neg (by omega)]
    · rfl
  refine ⟨key, dflt, ?_, ?_, ?_, ?_, ?_, ?_⟩
  · intro n h0 h1 hv
    exact key n (by rw [hv]; exact Atoi_Itoa n (by omega) h1) h0
  · intro hv
    exact key 10 (by rw [hv]; decide) (by decide)
  · intro hv
    refine dflt (fun n hn => ?_)
    rw [hv] at hn
    have : Atoi (str "abc") = none := by decide
    rw [this] at hn
    cases hn
  · intro hv
    refine dflt (fun n hn => ?_)
    rw [hv] at hn
    have : Atoi (str "-1") = some (-1) := by decide
    rw [this] at hn
    have := Option.some.inj hn
    omega
  · intro hv
    refine dflt (fun n hn => ?_)
    rw [hv] at hn
    have : Atoi (str "0") = some 0 := by decide
    rw [this] at hn
    have := Option.some.inj hn
    omega
  · intro hv
    exact dflt (fun n hn => by rw [hv] at hn; simp [Atoi] at hn)

theorem timeoutSec_spec_witness :
    timeoutSec ⟨[], str "10", [], [], []⟩ = 10 ∧ timeoutSec ⟨[], str "abc", [], [], []⟩ = 5 ∧
    timeoutSec ⟨[], str "-1", [], [], []⟩ = 5 ∧ timeoutSec ⟨[], Itoa 42, [], [], []⟩ = 42 :=
  ⟨(timeoutSec_spec ⟨[], str "10", [], [], []⟩).2.2.2.1 rfl,
   (timeoutSec_spec ⟨[], str "abc", [], [], []⟩).2.2.2.2.1 rfl,
   (timeoutSec_spec ⟨[], str "-1", [], [], []⟩).2.2.2.2.2.1 rfl,
   (timeoutSec_spec ⟨[], Itoa 42, [], [], []⟩).2.2.1 42 (by decide) (by decide) rfl⟩

/-- C9, at the value "9223372037" of `TERMINAL_AI_TIMEOUT`: the number of seconds selected
is 9223372037 and the `Timeout` given to the HTTP client is negative, the product with
`time.Second` having left the `int64` range, and that is the `Timeout` of the request
`callGeminiAPI` sends; at "36028797018963968" the `Timeout` is zero. -/
theorem clientTimeout_overflow :
    timeoutSec ⟨str "k", str "9223372037", [], [], []⟩ = 9223372037 ∧
    clientTimeout ⟨str "k", str "9223372037", [], [], []⟩ = -9223372036709551616 ∧
    (callGeminiAPI ⟨str "k", str "9223372037", [], [], []⟩ worldDown
      (payloadOf (str "list files"))).posts.map HttpRequest.Timeout = [-9223372036709551616] ∧
    timeoutSec ⟨str "k", str "36028797018963968", [], [], []⟩ = 36028797018963968 ∧
    clientTimeout ⟨str "k", str "36028797018963968", [], [], []⟩ = 0 := by
  decide

/-! ## The CLI driver -/

/-- The function `Join` puts the separator between consecutive elements. -/
theorem Join_eq_intercalate (elems : List GoString) (sep : GoString) :
    Join elems sep = sep.intercalate elems := by
  induction elems with
  | nil => rfl
  | cons a rest ih =>
    cases rest with
    | nil => simp [Join, List.intercalate]
    | cons b rest2 =>
      rw [Join, ih]
      · simp [List.intercalate, List.intersperse, List.append_assoc]
      · simp

/-- The debug flag changes nothing of a call but what is written to stderr. -/
theorem callGeminiAPI_debug (key t d1 d2 o j : GoString) (w : World) (payload : GeminiRequest) :
    (callGeminiAPI ⟨key, t, d1, o, j⟩ w payload).command
      = (callGeminiAPI ⟨key, t, d2, o, j⟩ w payload).command ∧
    (callGeminiAPI ⟨key, t, d1, o, j⟩ w payload).err
      = (callGeminiAPI ⟨key, t, d2, o, j⟩ w payload).err ∧
    (callGeminiAPI ⟨key, t, d1, o, j⟩ w payload).posts
      = (callGeminiAPI ⟨key, t, d2, o, j⟩ w payload).posts := by
  by_cases hkey : key = []
  · rw [callGeminiAPI_noKey _ w payload hkey, callGeminiAPI_noKey _ w payload hkey]
    exact ⟨rfl, rfl, rfl⟩
  · cases hreq : w.NewRequest (apiURL key) (reqBodyJSON (prompt payload)) with
    | some err =>
      rw [callGeminiAPI_newRequestFails ⟨key, t, d1, o, j⟩ w payload err hkey hreq,
        callGeminiAPI_newRequestFails ⟨key, t, d2, o, j⟩ w payload err hkey hreq]
      exact ⟨rfl, rfl, rfl⟩
    | none =>
      cases hdo : w.Do (theRequest ⟨key, t, d1, o, j⟩ payload) with
      | error err =>
        rw [callGeminiAPI_doFails ⟨key, t, d1, o, j⟩ w payload err hkey hreq hdo,
          callGeminiAPI_doFails ⟨key, t, d2, o, j⟩ w payload err hkey hreq hdo]
        exact ⟨rfl, rfl, rfl⟩
      | ok resp =>
        rw [callGeminiAPI_response ⟨key, t, d1, o, j⟩ w payload resp hkey hreq hdo,
          callGeminiAPI_response ⟨key, t, d2, o, j⟩ w payload resp hkey hreq hdo]
        repeat' split
        all_goals exact ⟨rfl, rfl, rfl⟩

/-- The debug flag changes nothing of what `generateSuggestion` returns and sends. -/
theorem generateSuggestion_debug (key t d1 d2 o j : GoString) (w : World) (input : GoString) :
    (generateSuggestion ⟨key, t, d1, o, j⟩ w input).suggestion
      = (generateSuggestion ⟨key, t, d2, o, j⟩ w input).suggestion ∧
    (generateSuggestion ⟨key, t, d1, o, j⟩ w input).posts
      = (generateSuggestion ⟨key, t, d2, o, j⟩ w input).posts := by
  by_cases hoff : o = str "1"
  · simp [generateSuggestion, hoff]
  · obtain ⟨_, h2, h3⟩ := callGeminiAPI_debug key t d1 d2 o j w (payloadOf input)
    cases he : (callGeminiAPI ⟨key, t, d1, o, j⟩ w (payloadOf input)).err with
    | some e =>
      rw [generateSuggestion_of_err ⟨key, t, d1, o, j⟩ w input e hoff he,
        generateSuggestion_of_err ⟨key, t, d2, o, j⟩ w input e hoff (by rw [← h2]; exact he)]
      exact ⟨rfl, h3⟩
    | none =>
      obtain ⟨h1, _, _⟩ := callGeminiAPI_debug key t d1 d2 o j w (payloadOf input)
      rw [generateSuggestion_of_ok ⟨key, t, d1, o, j⟩ w input hoff he,
        generateSuggestion_of_ok ⟨key, t, d2, o, j⟩ w input hoff (by rw [← h2]; exact he)]
      exact ⟨by rw [h1], h3⟩

/-- The text `main` writes to stdout for a Suggestion. -/
theorem main_of_args (env : Env) (w : World) (Args : List GoString) (h : Args.drop 1 ≠ []) :
    main env w Args =
      ⟨0,
       Println (if env.TERMINAL_AI_JSON = str "1" then
          str "\x7b\"command\":" ++ appendString
            (generateSuggestion env w (Join (Args.drop 1) (str " "))).suggestion.Command
            ++ str "\x7d"
        else (generateSuggestion env w (Join (Args.drop 1) (str " "))).suggestion.Command),
       (generateSuggestion env w (Join (Args.drop 1) (str " "))).stderr,
       (generateSuggestion env w (Join (Args.drop 1) (str " "))).posts⟩ := by
  have hlen : ¬ Args.length < 2 := by
    intro hl
    exact h (List.drop_eq_nil_iff.mpr (by omega))
  unfold main
  rw [if_neg hlen]
  by_cases hj : env.TERMINAL_AI_JSON = str "1"
  · simp [hj, MarshalSuggestion]
  · simp [hj]

/-- Without a query argument `main` exits with code 1 before anything else. -/
theorem main_no_args (env : Env) (w : World) (Args : List GoString) (h : Args.drop 1 = []) :
    main env w Args = ⟨1, [], [], []⟩ := by
  have hlen : Args.length < 2 := by
    have := List.drop_eq_nil_iff.mp h
    omega
  unfold main
  rw [if_pos hlen]

/-- Every request `callGeminiAPI` sends is `theRequest`. -/
theorem callGeminiAPI_posts (env : Env) (w : World) (payload : GeminiRequest) :
    ∀ req ∈ (callGeminiAPI env w payload).posts, req = theRequest env payload := by
  by_cases hkey : env.GEMINI_API_KEY = []
  · rw [callGeminiAPI_noKey env w payload hkey]
    intro req h
    cases h
  cases hreq : w.NewRequest (apiURL env.GEMINI_API_KEY) (reqBodyJSON (prompt payload)) with
  | some e =>
    rw [callGeminiAPI_newRequestFails env w payload e hkey hreq]
    intro req h
    cases h
  | none =>
    cases hdo : w.Do (theRequest env payload) with
    | error e =>
      rw [callGeminiAPI_doFails env w payload e hkey hreq hdo]
      intro req h
      exact List.mem_singleton.mp h
    | ok resp =>
      rw [callGeminiAPI_response env w payload resp hkey hreq hdo]
      intro req h
      repeat' split at h
      all_goals exact List.mem_singleton.mp h

/-- Every request a run of `main` sends is `theRequest` for the joined arguments. -/
theorem main_posts (env : Env) (w : World) (Args : List GoString) :
    ∀ req ∈ (main env w Args).posts,
      req = theRequest env (payloadOf (Join (Args.drop 1) (str " "))) := by
  by_cases h : Args.drop 1 = []
  · rw [main_no_args env w Args h]
    intro req hreq
    cases hreq
  · rw [main_of_args env w Args h]
    by_cases hoff : env.TERMINAL_AI_OFFLINE = str "1"
    · rw [generateSuggestion_of_offline env w _ hoff]
      intro req hreq
      cases hreq
    · cases he : (callGeminiAPI env w (payloadOf (Join (Args.drop 1) (str " ")))).err with
      | some e =>
        rw [generateSuggestion_of_err env w _ e hoff he]
        exact callGeminiAPI_posts env w _
      | none =>
        rw [generateSuggestion_of_ok env w _ hoff he]
        exact callGeminiAPI_posts env w _

/-- With a number of seconds that `time.Duration` can hold in nanoseconds, in a world where
a request with a deadline returns, the process exits the way `main` says: with code 1 and
nothing written when there is no query argument, and otherwise with code 0 and the one
Suggestion on stdout, also when the call failed. -/
theorem run_exited (env : Env) (w : World) (Args : List GoString)
    (hw : HonoursDeadline w) (ht : timeoutSec env ≤ 9223372036) :
    run env w Args = .exited (main env w Args) ∧
    (Args.drop 1 = [] → main env w Args = ⟨1, [], [], []⟩) ∧
    (Args.drop 1 ≠ [] →
      (main env w Args).exit = 0 ∧
      (main env w Args).stdout =
        Println (if env.TERMINAL_AI_JSON = str "1" then
          str "\x7b\"command\":" ++ appendString
            (generateSuggestion env w (Join (Args.drop 1) (str " "))).suggestion.Command
            ++ str "\x7d"
        else (generateSuggestion env w (Join (Args.drop 1) (str " "))).suggestion.Command)) := by
  refine ⟨?_, main_no_args env w Args, fun h => ?_⟩
  · have hnone : (main env w Args).posts.find? (fun req => !w.Returns req) = none := by
      rw [List.find?_eq_none]
      intro req hreq
      rw [main_posts env w Args req hreq]
      have hpos : 0 < (theRequest env (payloadOf (Join (Args.drop 1) (str " ")))).Timeout :=
        (clientTimeout_of_le env ht).2
      intro hc
      simp only [hw _ hpos, Bool.not_true] at hc
      cases hc
    unfold run
    rw [hnone]
  · rw [main_of_args env w Args h]
    exact ⟨rfl, rfl⟩

/-- C7, at the value "9223372037" of `TERMINAL_AI_TIMEOUT` and an endpoint that never
answers: the request is sent with a negative `Timeout`, no deadline ends the wait, and the
process stays blocked in `client.Do` with nothing on stdout and no exit code; with the
default timeout the same endpoint gives exit code 0 and the query echoed on stdout. -/
theorem run_blocked_on_overflow :
    run envOverflow worldSilent [str "terminal-ai", str "list", str "files"]
      = .blocked [] (theRequest envOverflow (payloadOf (str "list files"))) ∧
    (theRequest envOverflow (payloadOf (str "list files"))).Timeout = -9223372036709551616 ∧
    worldSilent.Returns (theRequest envOverflow (payloadOf (str "list files"))) = false ∧
    run envKey worldSilent [str "terminal-ai", str "list", str "files"]
      = .exited ⟨0, str "list files\n",
          str "Error: failed to call Gemini API: context deadline exceeded\n",
          [theRequest envKey (payloadOf (str "list files"))]⟩ :=
  ⟨rfl, by decide, by decide, rfl⟩

/-- C8. Plain output and query assembly: for a non-empty list of query arguments the query
is the arguments joined with single spaces in order; with offline mode on and the JSON flag
not "1", stdout is that query followed by one newline; and stdout is the same whatever the
value of the debug flag, in every mode. -/
theorem main_plain_offline (env : Env) (w : World) (prog q : GoString) (qs : List GoString)
    (hoff : env.TERMINAL_AI_OFFLINE = str "1") (hjson : env.TERMINAL_AI_JSON ≠ str "1") :
    (main env w (prog :: q :: qs)).stdout = Join (q :: qs) (str " ") ++ str "\n" ∧
    Join (q :: qs) (str " ") = [0x20].intercalate (q :: qs) ∧
    (∀ (env2 : Env) (w2 : World), env2.TERMINAL_AI_JSON ≠ str "1" →
      (main env2 w2 (prog :: q :: qs)).stdout
        = (generateSuggestion env2 w2 (Join (q :: qs) (str " "))).suggestion.Command
            ++ str "\n") ∧
    (main env w (prog :: q :: qs)).posts = [] ∧
    (∀ d : GoString,
      (main ⟨env.GEMINI_API_KEY, env.TERMINAL_AI_TIMEOUT, d, env.TERMINAL_AI_OFFLINE,
        env.TERMINAL_AI_JSON⟩ w (prog :: q :: qs)).stdout
        = (main env w (prog :: q :: qs)).stdout) ∧
    (∀ (key t d1 d2 o j : GoString) (w2 : World) (Args : List GoString),
      (main ⟨key, t, d1, o, j⟩ w2 Args).stdout = (main ⟨key, t, d2, o, j⟩ w2 Args).stdout) := by
  have hdbg : ∀ (key t d1 d2 o j : GoString) (w2 : World) (Args : List GoString),
      (main ⟨key, t, d1, o, j⟩ w2 Args).stdout = (main ⟨key, t, d2, o, j⟩ w2 Args).stdout := by
    intro key t d1 d2 o j w2 Args
    by_cases h : Args.drop 1 = []
    · rw [main_no_args _ w2 Args h, main_no_args _ w2 Args h]
    · rw [main_of_args _ w2 Args h, main_of_args _ w2 Args h]
      simp only [(generateSuggestion_debug key t d1 d2 o j w2 _).1]
  have hargs : (prog :: q :: qs).drop 1 ≠ [] := by simp
  refine ⟨?_, ?_, ?_, ?_, ?_, hdbg⟩
  · rw [main_of_args env w _ hargs]
    simp only [if_neg hjson]
    rw [generateSuggestion_of_offline env w _ hoff]
    rfl
  · rw [Join_eq_intercalate]
    rfl
  · intro env2 w2 hj
    rw [main_of_args env2 w2 _ hargs]
    simp only [if_neg hj]
    rfl
  · rw [main_of_args env w _ hargs, generateSuggestion_of_offline env w _ hoff]
  · intro d
    cases env with
    | mk key t d0 o j => exact hdbg key t d d0 o j w _

theorem main_plain_offline_witness :
    (main envOffline worldDown [str "terminal-ai", str "list", str "files"]).stdout
      = str "list files\n" :=
  (main_plain_offline envOffline worldDown (str "terminal-ai") (str "list") [str "files"]
    (by decide) (by decide)).1.trans (by decide)

/-! ## UTF-8 -/

/-- The runes a Go string can hold in valid UTF-8: the Unicode scalar values. -/
theorem Char_valid (c : Char) :
    c.toNat < 0xD800 ∨ (0xDFFF < c.toNat ∧ c.toNat < 0x110000) := c.valid

theorem DecodeRune_take4 (s : GoString) : DecodeRune (s.take 4) = DecodeRune s := by
  rcases s with _ | ⟨a, _ | ⟨b, _ | ⟨c, _ | ⟨d, rest⟩⟩⟩⟩ <;> rfl

theorem AppendRune_length (r : Nat) :
    1 ≤ (AppendRune r).length ∧ (AppendRune r).length ≤ 4 ∧
    (0x80 ≤ r → 2 ≤ (AppendRune r).length) := by
  unfold AppendRune
  split_ifs <;> simp only [List.length_cons, List.length_nil] <;> omega

/-- Decoding reads back the rune that was encoded, whatever follows it. -/
theorem DecodeRune_AppendRune (r : Nat) (t : GoString)
    (hv : r < 0xD800 ∨ (0xDFFF < r ∧ r < 0x110000)) (h80 : 0x80 ≤ r) :
    DecodeRune (AppendRune r ++ t) = (r, (AppendRune r).length) := by
  unfold AppendRune
  rw [if_neg (by omega)]
  by_cases h2 : r < 0x800
  · rw [if_pos h2]
    simp only [List.cons_append, List.nil_append, DecodeRune, List.length_cons, List.length_nil]
    rw [if_neg (by omega), if_neg (by omega), if_pos (by omega), if_neg (by omega)]
    congr 1
    omega
  · rw [if_neg h2, if_neg (by omega)]
    by_cases h3 : r < 0x10000
    · rw [if_pos h3]
      simp only [List.cons_append, List.nil_append, DecodeRune, List.length_cons, List.length_nil]
      rw [if_neg (by omega), if_neg (by omega), if_neg (by omega), if_pos (by omega)]
      rw [if_neg (by split_ifs <;> omega), if_neg (by omega)]
      congr 1
      omega
    · rw [if_neg h3]
      simp only [List.cons_append, List.nil_append, DecodeRune, List.length_cons, List.length_nil]
      rw [if_neg (by omega), if_neg (by omega), if_neg (by omega), if_neg (by omega),
        if_pos (by omega)]
      rw [if_neg (by split_ifs <;> omega), if_neg (by omega), if_neg (by omega)]
      congr 1
      omega

/-- The first byte of a rune of more than one byte. -/
theorem AppendRune_head (r : Nat) (h80 : 0x80 ≤ r) :
    ∃ b tl, AppendRune r = b :: tl ∧ 0x80 ≤ b := by
  unfold AppendRune
  split_ifs
  · omega
  · exact ⟨_, _, rfl, by omega⟩
  · exact ⟨_, _, rfl, by omega⟩
  · exact ⟨_, _, rfl, by omega⟩
  · exact ⟨_, _, rfl, by omega⟩

/-! ## `appendString` and its reading back -/

theorem appendStringLoop_nil (fuel : Nat) : appendStringLoop fuel [] = [] := by
  cases fuel <;> rfl

theorem appendStringLoop_ascii (fuel b : Nat) (rest : GoString) (h : b < 0x80) :
    appendStringLoop (fuel + 1) (b :: rest)
      = (if htmlSafeSet b then [b] else escapeByte b) ++ appendStringLoop fuel rest := by
  rw [appendStringLoop]
  simp only [if_pos h]

theorem unquoteLoop_safe (F c : Nat) (s : GoString) (h : htmlSafeSet c = true) :
    unquoteLoop (F + 1) (c :: s) = prepend [c] (unquoteLoop F s) := by
  simp only [htmlSafeSet, decide_eq_true_eq] at h
  simp only [unquoteLoop, if_neg h.2.2.1, if_neg h.2.2.2.2.2.2,
    if_neg (show ¬ c < 0x20 by omega), if_pos h.2.1]

theorem hexValue_hex (n : Nat) (h : n < 16) : hexValue (hex n) = some n := by
  interval_cases n <;> rfl

theorem unquoteLoop_escape (F b : Nat) (s : GoString) (hb : b < 0x80)
    (hns : htmlSafeSet b = false) :
    unquoteLoop (F + 1) (escapeByte b ++ s) = prepend [b] (unquoteLoop F s) := by
  unfold escapeByte
  split_ifs with h1 h2 h3 h4 h5 h6
  · rcases h1 with h1 | h1 <;> subst h1 <;> rfl
  · subst h2; rfl
  · subst h3; rfl
  · subst h4; rfl
  · subst h5; rfl
  · subst h6; rfl
  · simp only [List.cons_append, List.nil_append]
    rw [unquoteLoop]
    simp only [getu4, hexValue_hex (b / 16) (by omega), hexValue_hex (b % 16) (by omega)]
    have h0 : hexValue 0x30 = some 0 := rfl
    simp only [h0]
    have hval : ((0 * 16 + 0) * 16 + b / 16) * 16 + b % 16 = b := by omega
    simp only [hval, List.drop]
    have hone : AppendRune b = [b] := by simp [AppendRune, hb]
    have hs : ¬ (55296 ≤ b ∧ b < 57344) := by omega
    simp [hone, hs]

theorem unquoteLoop_u202x (F r : Nat) (s : GoString) (hr : r = 0x2028 ∨ r = 0x2029) :
    unquoteLoop (F + 1) ([0x5C, 0x75, 0x32, 0x30, 0x32, hex (r % 16)] ++ s)
      = prepend (AppendRune r) (unquoteLoop F s) := by
  rcases hr with hr | hr <;> subst hr <;> rfl

theorem unquoteLoop_rune (F r : Nat) (s : GoString)
    (hv : r < 0xD800 ∨ (0xDFFF < r ∧ r < 0x110000)) (h80 : 0x80 ≤ r) :
    unquoteLoop (F + 1) (AppendRune r ++ s) = prepend (AppendRune r) (unquoteLoop F s) := by
  obtain ⟨b, tl, hb, hb80⟩ := AppendRune_head r h80
  have heq : b :: (tl ++ s) = AppendRune r ++ s := by rw [hb]; rfl
  rw [hb, List.cons_append]
  simp only [unquoteLoop, if_neg (show ¬ b = 0x22 by omega), if_neg (show ¬ b = 0x5C by omega),
    if_neg (show ¬ b < 0x20 by omega), if_neg (show ¬ b < 0x80 by omega)]
  rw [heq, DecodeRune_AppendRune r s hv h80]
  simp only
  rw [List.drop_left, hb]

theorem length_escapeByte (b : Nat) : 1 ≤ (escapeByte b).length := by
  unfold escapeByte
  split_ifs <;> simp

theorem unquoteLoop_ufffd (F : Nat) (s : GoString) :
    unquoteLoop (F + 1) ([0xEF, 0xBF, 0xBD] ++ s)
      = prepend [0xEF, 0xBF, 0xBD] (unquoteLoop F s) :=
  unquoteLoop_rune F 0xFFFD s (by omega) (by omega)

theorem appendStringLoop_multi (fuel b : Nat) (rest : GoString) (h : 0x80 ≤ b) :
    appendStringLoop (fuel + 1) (b :: rest)
      = if (DecodeRune (b :: rest)).1 = RuneError ∧ (DecodeRune (b :: rest)).2 = 1 then
          [0xEF, 0xBF, 0xBD]
            ++ appendStringLoop fuel ((b :: rest).drop (DecodeRune (b :: rest)).2)
        else if (DecodeRune (b :: rest)).1 = 0x2028 ∨ (DecodeRune (b :: rest)).1 = 0x2029 then
          [0x5C, 0x75, 0x32, 0x30, 0x32, hex ((DecodeRune (b :: rest)).1 % 16)]
            ++ appendStringLoop fuel ((b :: rest).drop (DecodeRune (b :: rest)).2)
        else (b :: rest).take (DecodeRune (b :: rest)).2
            ++ appendStringLoop fuel ((b :: rest).drop (DecodeRune (b :: rest)).2) := by
  rw [appendStringLoop]
  simp only [if_neg (show ¬ b < 0x80 by omega), DecodeRune_take4]

/-- A rune that `DecodeRune` reads from more than one byte is a Unicode scalar value, and
encoding it gives back the bytes it was read from. -/
theorem DecodeRune_valid (b : Nat) (rest : GoString) (hb : 0x80 ≤ b) :
    DecodeRune (b :: rest) = (RuneError, 1) ∨
    (((DecodeRune (b :: rest)).1 < 0xD800 ∨
        (0xDFFF < (DecodeRune (b :: rest)).1 ∧ (DecodeRune (b :: rest)).1 < 0x110000)) ∧
      0x80 ≤ (DecodeRune (b :: rest)).1 ∧ 2 ≤ (DecodeRune (b :: rest)).2 ∧
      (b :: rest).take (DecodeRune (b :: rest)).2 = AppendRune (DecodeRune (b :: rest)).1) := by
  unfold DecodeRune
  simp only
  rw [if_neg (by omega)]
  by_cases c1 : b < 0xC2
  · rw [if_pos c1]
    exact Or.inl rfl
  rw [if_neg c1]
  by_cases c2 : b < 0xE0
  · rw [if_pos c2]
    rcases rest with _ | ⟨s1, rest⟩
    · exact Or.inl rfl
    · simp only
      by_cases c : s1 < 0x80 ∨ 0xBF < s1
      · rw [if_pos c]
        exact Or.inl rfl
      · rw [if_neg c]
        refine Or.inr ⟨by simp only; omega, by simp only; omega, by simp, ?_⟩
        simp only [List.take]
        unfold AppendRune
        rw [if_neg (by omega), if_pos (by omega)]
        congr 1
        · omega
        · congr 1
          omega
  rw [if_neg c2]
  by_cases c3 : b < 0xF0
  · rw [if_pos c3]
    rcases rest with _ | ⟨s1, _ | ⟨s2, rest⟩⟩
    · exact Or.inl rfl
    · exact Or.inl rfl
    · simp only
      by_cases c : s1 < (if b = 0xE0 then 0xA0 else 0x80) ∨ (if b = 0xED then 0x9F else 0xBF) < s1
      · rw [if_pos c]
        exact Or.inl rfl
      · rw [if_neg c]
        by_cases c' : s2 < 0x80 ∨ 0xBF < s2
        · rw [if_pos c']
          exact Or.inl rfl
        · rw [if_neg c']
          have hlo : (if b = 0xE0 then 0xA0 else 0x80) ≤ s1 := by
            by_contra hlt
            exact c (Or.inl (by omega))
          have hhi : s1 ≤ (if b = 0xED then 0x9F else 0xBF) := by
            by_contra hlt
            exact c (Or.inr (by omega))
          have hs1 : 0x80 ≤ s1 := by split_ifs at hlo <;> omega
          have hs1' : s1 ≤ 0xBF := by split_ifs at hhi <;> omega
          have hr1 : 0x800 ≤ b % 16 * 4096 + s1 % 64 * 64 + s2 % 64 := by
            split_ifs at hlo <;> omega
          have hr2 : b % 16 * 4096 + s1 % 64 * 64 + s2 % 64 < 0x10000 := by omega
          have hr3 : ¬ (0xD800 ≤ b % 16 * 4096 + s1 % 64 * 64 + s2 % 64 ∧
              b % 16 * 4096 + s1 % 64 * 64 + s2 % 64 ≤ 0xDFFF) := by
            split_ifs at hhi hlo <;> omega
          refine Or.inr ⟨by simp only; omega, by simp only; omega, by simp, ?_⟩
          simp only [List.take]
          unfold AppendRune
          rw [if_neg (by omega), if_neg (by omega), if_neg (by omega), if_pos (by omega)]
          congr 1
          · omega
          · congr 1
            · omega
            · congr 1
              omega
  rw [if_neg c3]
  by_cases c4 : b < 0xF5
  · rw [if_pos c4]
    rcases rest with _ | ⟨s1, _ | ⟨s2, _ | ⟨s3, rest⟩⟩⟩
    · exact Or.inl rfl
    · exact Or.inl rfl
    · exact Or.inl rfl
    · simp only
      by_cases c : s1 < (if b = 0xF0 then 0x90 else 0x80) ∨ (if b = 0xF4 then 0x8F else 0xBF) < s1
      · rw [if_pos c]
        exact Or.inl rfl
      · rw [if_neg c]
        by_cases c' : s2 < 0x80 ∨ 0xBF < s2
        · rw [if_pos c']
          exact Or.inl rfl
        · rw [if_neg c']
          by_cases c'' : s3 < 0x80 ∨ 0xBF < s3
          · rw [if_pos c'']
            exact Or.inl rfl
          · rw [if_neg c'']
            have hlo : (if b = 0xF0 then 0x90 else 0x80) ≤ s1 := by
              by_contra hlt
              exact c (Or.inl (by omega))
            have hhi : s1 ≤ (if b = 0xF4 then 0x8F else 0xBF) := by
              by_contra hlt
              exact c (Or.inr (by omega))
            have hs1 : 0x80 ≤ s1 := by split_ifs at hlo <;> omega
            have hs1' : s1 ≤ 0xBF := by split_ifs at hhi <;> omega
            have hr1 : 0x10000 ≤ b % 8 * 262144 + s1 % 64 * 4096 + s2 % 64 * 64 + s3 % 64 := by
              split_ifs at hlo <;> omega
            have hr2 : b % 8 * 262144 + s1 % 64 * 4096 + s2 % 64 * 64 + s3 % 64 < 0x110000 := by
              split_ifs at hhi <;> omega
            refine Or.inr ⟨by simp only; omega, by simp only; omega, by simp, ?_⟩
            simp only [List.take]
            unfold AppendRune
            rw [if_neg (by omega), if_neg (by omega), if_neg (by omega), if_neg (by omega)]
            congr 1
            · omega
            · congr 1
              · omega
              · congr 1
                · omega
                · congr 1
                  omega
  · rw [if_neg c4]
    exact Or.inl rfl

/-- Reading back what `appendStringLoop` wrote gives the string coerced to valid UTF-8,
whatever the bytes of the string are. -/
theorem unquoteLoop_appendStringLoop (f : Nat) :
    ∀ (src : GoString) (F : Nat) (rest : GoString),
      (appendStringLoop f src).length + 1 ≤ F →
      unquoteLoop F (appendStringLoop f src ++ 0x22 :: rest) = some (coerceLoop f src, rest) := by
  induction f with
  | zero =>
    intro src F rest hF
    obtain ⟨F, rfl⟩ : ∃ F2, F = F2 + 1 := ⟨F - 1, by omega⟩
    rfl
  | succ f ih =>
    intro src F rest hF
    obtain ⟨F, rfl⟩ : ∃ F2, F = F2 + 1 := ⟨F - 1, by omega⟩
    cases src with
    | nil => rfl
    | cons b tl =>
      by_cases h80 : b < 0x80
      · rw [appendStringLoop_ascii _ _ _ h80] at hF ⊢
        rw [List.length_append] at hF
        rw [List.append_assoc]
        have hle := length_escapeByte b
        have hco : coerceLoop (f + 1) (b :: tl) = [b] ++ coerceLoop f tl := by
          rw [coerceLoop]
          simp only [if_pos h80]
          rfl
        rw [hco]
        cases hs : htmlSafeSet b with
        | true =>
          rw [hs] at hF
          simp only [if_true, List.length_cons, List.length_nil, List.singleton_append] at hF ⊢
          rw [unquoteLoop_safe _ _ _ hs, ih tl F rest (by omega)]
          rfl
        | false =>
          rw [hs] at hF
          simp only [Bool.false_eq_true, if_false] at hF ⊢
          rw [unquoteLoop_escape _ _ _ h80 hs, ih tl F rest (by omega)]
          rfl
      · have h80 : 0x80 ≤ b := by omega
        rw [appendStringLoop_multi _ _ _ h80] at hF ⊢
        have hco : coerceLoop (f + 1) (b :: tl)
            = if (DecodeRune (b :: tl)).1 = RuneError ∧ (DecodeRune (b :: tl)).2 = 1 then
                [0xEF, 0xBF, 0xBD] ++ coerceLoop f ((b :: tl).drop (DecodeRune (b :: tl)).2)
              else (b :: tl).take (DecodeRune (b :: tl)).2
                ++ coerceLoop f ((b :: tl).drop (DecodeRune (b :: tl)).2) := by
          rw [coerceLoop]
          simp only [if_neg (show ¬ b < 0x80 by omega)]
        rw [hco]
        rcases DecodeRune_valid b tl h80 with hbad | ⟨hv, hge, hsize, htake⟩
        · have hcond : (DecodeRune (b :: tl)).1 = RuneError ∧ (DecodeRune (b :: tl)).2 = 1 := by
            rw [hbad]
            exact ⟨rfl, rfl⟩
          rw [if_pos hcond] at hF ⊢
          rw [if_pos hcond]
          rw [List.length_append] at hF
          simp only [List.length_cons, List.length_nil] at hF
          rw [List.append_assoc, unquoteLoop_ufffd, ih _ F rest (by omega)]
          rfl
        · have hcond : ¬ ((DecodeRune (b :: tl)).1 = RuneError ∧ (DecodeRune (b :: tl)).2 = 1) := by
            intro hc
            omega
          rw [if_neg hcond] at hF ⊢
          rw [if_neg hcond, htake]
          by_cases hr : (DecodeRune (b :: tl)).1 = 0x2028 ∨ (DecodeRune (b :: tl)).1 = 0x2029
          · rw [if_pos hr] at hF ⊢
            rw [List.length_append] at hF
            simp only [List.length_cons, List.length_nil] at hF
            rw [List.append_assoc, unquoteLoop_u202x _ _ _ hr, ih _ F rest (by omega)]
            rfl
          · rw [if_neg hr] at hF ⊢
            rw [htake] at hF
            rw [List.length_append] at hF
            have hl := (AppendRune_length (DecodeRune (b :: tl)).1).1
            rw [List.append_assoc, unquoteLoop_rune _ _ _ hv hge, ih _ F rest (by omega)]
            rfl

/-- Valid UTF-8 is left as it is by the coercion. -/
theorem coerceLoop_utf8 (cs : List Char) :
    ∀ f : Nat, (utf8 cs).length ≤ f → coerceLoop f (utf8 cs) = utf8 cs := by
  induction cs with
  | nil =>
    intro f _
    cases f <;> rfl
  | cons c cs ih =>
    intro f hf
    rw [utf8] at hf ⊢
    have hl := AppendRune_length c.toNat
    rw [List.length_append] at hf
    obtain ⟨f, rfl⟩ : ∃ f2, f = f2 + 1 := ⟨f - 1, by omega⟩
    by_cases h80 : c.toNat < 0x80
    · have hone : AppendRune c.toNat = [c.toNat] := by simp [AppendRune, h80]
      rw [hone] at hf ⊢
      simp only [List.singleton_append, List.length_cons, List.length_nil] at hf ⊢
      rw [coerceLoop]
      simp only [if_pos h80]
      rw [ih f (by omega)]
    · have h80 : 0x80 ≤ c.toNat := by omega
      obtain ⟨b, tl, hb, hb80⟩ := AppendRune_head c.toNat h80
      have heq : b :: (tl ++ utf8 cs) = AppendRune c.toNat ++ utf8 cs := by rw [hb]; rfl
      have hdec := DecodeRune_AppendRune c.toNat (utf8 cs) (Char_valid c) h80
      have hl2 := hl.2.2 h80
      rw [← heq, coerceLoop]
      simp only [if_neg (show ¬ b < 0x80 by omega)]
      rw [heq, hdec]
      simp only
      rw [if_neg (by omega), List.take_left, List.drop_left, ih f (by omega)]

/-- The JSON string written for a Go string is read back as the string coerced to valid
UTF-8. -/
theorem parseString_appendString (src rest : GoString) :
    parseString (appendString src ++ rest) = some (coerceUTF8 src, rest) := by
  unfold appendString coerceUTF8
  simp only [List.singleton_append, List.cons_append, List.append_assoc, parseString, if_true]
  exact unquoteLoop_appendStringLoop _ src _ rest (by simp)

theorem coerceUTF8_utf8 (cs : List Char) : coerceUTF8 (utf8 cs) = utf8 cs :=
  coerceLoop_utf8 cs _ (le_refl _)

/-! ## The JSON line on stdout -/

theorem AppendRune_ge (r : Nat) (h80 : 0x80 ≤ r) : ∀ x ∈ AppendRune r, 0x80 ≤ x := by
  unfold AppendRune
  split_ifs <;> simp <;> omega

theorem DecodeRune_take_ge (b : Nat) (rest : GoString) (hb : 0x80 ≤ b) :
    ∀ x ∈ (b :: rest).take (DecodeRune (b :: rest)).2, 0x80 ≤ x := by
  rcases DecodeRune_valid b rest hb with hbad | ⟨_, hge, _, htake⟩
  · rw [hbad]
    intro x hx
    simp only [List.take, List.mem_singleton] at hx
    omega
  · rw [htake]
    exact AppendRune_ge _ hge

theorem escapeByte_ge (b : Nat) (hb : b < 0x80) : ∀ x ∈ escapeByte b, 0x20 ≤ x := by
  unfold escapeByte hex
  split_ifs <;> simp <;> omega

/-- Whatever the bytes of the string, `appendStringLoop` writes no control character: no
byte below 0x20, so no line feed and no carriage return. -/
theorem appendStringLoop_ge (fuel : Nat) :
    ∀ src : GoString, ∀ x ∈ appendStringLoop fuel src, 0x20 ≤ x := by
  induction fuel with
  | zero => intro src x hx; simp [appendStringLoop] at hx
  | succ fuel ih =>
    intro src x hx
    cases src with
    | nil => simp [appendStringLoop] at hx
    | cons b rest =>
      rw [appendStringLoop] at hx
      simp only at hx
      by_cases hb : b < 0x80
      · rw [if_pos hb, List.mem_append] at hx
        rcases hx with hx | hx
        · cases hs : htmlSafeSet b with
          | true =>
            rw [hs] at hx
            simp only [if_true, List.mem_singleton] at hx
            simp only [htmlSafeSet, decide_eq_true_eq] at hs
            omega
          | false =>
            rw [hs] at hx
            exact escapeByte_ge b hb x hx
        · exact ih _ x hx
      · rw [if_neg hb, DecodeRune_take4] at hx
        split_ifs at hx
        · rw [List.mem_append] at hx
          rcases hx with hx | hx
          · simp at hx
            omega
          · exact ih _ x hx
        · rw [List.mem_append] at hx
          rcases hx with hx | hx
          · simp [hex] at hx
            rcases hx with hx | hx | hx | hx | hx | hx
            all_goals first | omega | (split_ifs at hx <;> omega)
          · exact ih _ x hx
        · rw [List.mem_append] at hx
          rcases hx with hx | hx
          · have := DecodeRune_take_ge b rest (by omega) x hx
            omega
          · exact ih _ x hx

/-- C6, as amended. With `TERMINAL_AI_JSON` set to "1" and at least one query argument,
stdout is one line ended by a newline; the line is the object with the one key "command",
written without any white space between its tokens, and holds no control character (so no
line break) whatever the Command is; the value of "command" decodes to the Command coerced
to valid UTF-8, hence back to the Command itself when the Command is valid UTF-8; for the
input "list files" with offline mode on, stdout is the line with "list files" as the
value. -/
theorem main_json_line (env : Env) (w : World) (Args : List GoString)
    (hjson : env.TERMINAL_AI_JSON = str "1") (hargs : Args.drop 1 ≠ []) :
    (∃ line : GoString,
      (main env w Args).stdout = line ++ [0x0A] ∧
      line = str "\x7b\"command\":" ++ appendString
          (generateSuggestion env w (Join (Args.drop 1) (str " "))).suggestion.Command
        ++ str "\x7d" ∧
      (∀ b ∈ line, 0x20 ≤ b) ∧ 0x0A ∉ line ∧ 0x0D ∉ line ∧
      decodeObject line = some (str "command", coerceUTF8
        (generateSuggestion env w (Join (Args.drop 1) (str " "))).suggestion.Command) ∧
      (∀ cs : List Char,
        (generateSuggestion env w (Join (Args.drop 1) (str " "))).suggestion.Command = utf8 cs →
        decodeObject line = some (str "command", utf8 cs))) ∧
    (env.TERMINAL_AI_OFFLINE = str "1" → ∀ prog : GoString,
      (main env w [prog, str "list files"]).stdout
        = str "\x7b\"command\":\"list files\"\x7d\n") := by
  constructor
  · refine ⟨_, ?_, rfl, ?_⟩
    · rw [main_of_args env w Args hargs]
      simp only [if_pos hjson]
      rfl
    · generalize (generateSuggestion env w (Join (Args.drop 1) (str " "))).suggestion.Command
        = cmd
      have hge : ∀ b ∈ str "\x7b\"command\":" ++ appendString cmd ++ str "\x7d", 0x20 ≤ b := by
        intro b hb
        rw [List.mem_append, List.mem_append] at hb
        rcases hb with (hb | hb) | hb
        · revert b
          decide
        · unfold appendString at hb
          rw [List.mem_append, List.mem_append] at hb
          rcases hb with (hb | hb) | hb
          · simp at hb; omega
          · exact appendStringLoop_ge _ _ b hb
          · simp at hb; omega
        · revert b
          decide
      have hdec : decodeObject (str "\x7b\"command\":" ++ appendString cmd ++ str "\x7d")
          = some (str "command", coerceUTF8 cmd) := by
        have hkey : str "\x7b\"command\":" = [0x7B] ++ appendString (utf8 "command".toList)
            ++ [0x3A] := by decide
        have hclose : str "\x7d" = [0x7D] := by decide
        rw [hkey, hclose]
        simp only [List.singleton_append, List.cons_append, List.append_assoc, decodeObject,
          if_true, List.nil_append]
        rw [parseString_appendString]
        simp only [if_true]
        rw [parseString_appendString]
        simp only [if_true, coerceUTF8_utf8]
        rfl
      refine ⟨hge, fun h => ?_, fun h => ?_, hdec, ?_⟩
      · exact absurd (hge _ h) (by decide)
      · exact absurd (hge _ h) (by decide)
      · intro cs hcs
        rw [hdec, hcs, coerceUTF8_utf8]
  · intro hoff prog
    rw [main_of_args env w _ (by simp)]
    simp only [if_pos hjson]
    rw [generateSuggestion_of_offline env w _ hoff]
    rfl

theorem main_json_line_witness :
    envOfflineJSON.TERMINAL_AI_JSON = str "1" ∧
    (main envOfflineJSON worldDown [str "terminal-ai", str "list files"]).stdout
      = str "\x7b\"command\":\"list files\"\x7d\n" ∧
    ∃ line : GoString,
      (main envOfflineJSON worldDown [str "terminal-ai", str "list files"]).stdout
        = line ++ [0x0A] ∧
      decodeObject line = some (str "command", str "list files") :=
  ⟨by decide,
   (main_json_line envOfflineJSON worldDown [str "terminal-ai", str "list files"]
      (by decide) (by decide)).2 (by decide) (str "terminal-ai"),
   match (main_json_line envOfflineJSON worldDown [str "terminal-ai", str "list files"]
      (by decide) (by decide)).1 with
   | ⟨line, h1, _, _, _, _, _, h7⟩ => ⟨line, h1, h7 "list files".toList (by decide)⟩⟩

/-- C6, as stated, fails: for the query argument made of the one byte 0xFF (not valid
UTF-8), with offline mode on, the Command is that byte, stdout holds the three bytes of
U+FFFD between the quotes, and the value of "command" decodes to those three bytes, not to
the Command; the query 0xFE gives the same stdout, so that no decoder can tell the two
Commands apart. -/
theorem main_json_invalid_utf8 :
    (generateSuggestion envOfflineJSON worldDown [0xFF]).suggestion.Command = [0xFF] ∧
    (main envOfflineJSON worldDown [str "terminal-ai", [0xFF]]).stdout
      = str "\x7b\"command\":\"" ++ [0xEF, 0xBF, 0xBD] ++ str "\"\x7d\n" ∧
    decodeObject (str "\x7b\"command\":\"" ++ [0xEF, 0xBF, 0xBD] ++ str "\"\x7d")
      = some (str "command", [0xEF, 0xBF, 0xBD]) ∧
    decodeObject (str "\x7b\"command\":\"" ++ [0xEF, 0xBF, 0xBD] ++ str "\"\x7d")
      ≠ some (str "command", [0xFF]) ∧
    (main envOfflineJSON worldDown [str "terminal-ai", [0xFE]]).stdout
      = (main envOfflineJSON worldDown [str "terminal-ai", [0xFF]]).stdout := by
  decide

end TerminalAI
